import Mathlib

/-!
Verification of the rule-templater library (HalleyAssist/rule-templater).

The development shallowly embeds `src/RuleTemplater.js` (the `RuleTemplate`
class: `parse`, `extractVariables`, `validate`, `prepare`,
`_rebuildFromAST`, `_computeTemplateReplacement`, `_extractVariableFromNode`,
`_extractFilterName`, the grammar-composition module initialisation) together
with `src/TemplateFilters.js`.

Modelling decisions, shared by the whole file:
* JavaScript strings are Lean `String`s (positions are code points; all
  concrete inputs are ASCII so this coincides with UTF-16 indices).
* JavaScript numbers are modelled as integers (`Int`) plus an explicit `NaN`
  value; no claim exercises non-integer numerics.
* JavaScript exceptions become `Except`; a thrown error means no output.
* The `ebnf` parser package is an external dependency (explicitly out of
  scope in the repository); its `getAST` result is modelled as an arbitrary
  AST node, constrained where needed by the documented parse-tree invariant
  (`WF` below).  `RuleTemplate.parse` is therefore parameterised by a
  `getAST : String → Node` oracle.
-/

/-! ## JavaScript string primitives -/

/-- Take the code points of `s` from index `a` (inclusive) to `b` (exclusive),
the basic slicing operation used to state reconstruction facts. -/
def sliceNat (s : String) (a b : Nat) : String :=
  String.mk ((s.data.drop a).take (b - a))

/-- JavaScript `String.prototype.substring`: both indices are clamped into
`[0, length]` and swapped when out of order. -/
def jsSubstring (s : String) (a b : Int) : String :=
  let len : Int := (s.length : Int)
  let a2 := min (max a 0) len
  let b2 := min (max b 0) len
  if a2 ≤ b2 then sliceNat s a2.toNat b2.toNat else sliceNat s b2.toNat a2.toNat

/-- The whitespace set of JavaScript `String.prototype.trim` (ASCII part plus
NBSP and BOM; other exotic Unicode spaces do not occur in this code base). -/
def isJsSpace (c : Char) : Bool :=
  c = ' ' || c = '\t' || c = '\n' || c = '\r' || c = '\x0b' || c = '\x0c' ||
  c = '\u00A0' || c = '\uFEFF'

/-- JavaScript `String.prototype.trim`. -/
def jsTrim (s : String) : String :=
  String.mk (((s.data.dropWhile isJsSpace).reverse.dropWhile isJsSpace).reverse)

/-- JavaScript `String.prototype.toUpperCase` (ASCII; the sources only use
ASCII identifiers and values). -/
def jsToUpperCase (s : String) : String :=
  String.mk (s.data.map Char.toUpper)

/-- JavaScript `String.prototype.toLowerCase` (ASCII). -/
def jsToLowerCase (s : String) : String :=
  String.mk (s.data.map Char.toLower)

/-- Global single-character regex replacement, modelling
`s.replace(/c/g, rep)` for a single-character pattern `c`. -/
def jsReplaceAllChar (s : String) (c : Char) (rep : List Char) : String :=
  String.mk (s.data.flatMap (fun d => if d = c then rep else [d]))

/-- JavaScript `str.split(' ')` on the single-space separator,
as a list-of-code-points operation. -/
def jsSplitSpace : List Char → List (List Char)
  | [] => [[]]
  | c :: rest =>
    match jsSplitSpace rest with
    | w :: ws => if c = ' ' then [] :: w :: ws else (c :: w) :: ws
    | [] => if c = ' ' then [[], []] else [[c]]

/-- JavaScript `words.join(' ')`. -/
def jsJoinSpace (ws : List (List Char)) : List Char :=
  (List.intersperse [' '] ws).flatten

/-! ## JavaScript values -/

/-- The JavaScript values flowing through bindings and filters: strings,
(integer) numbers, `NaN`, booleans. -/
inductive JSValue where
  | str (s : String)
  | num (n : Int)
  | nan
  | bool (b : Bool)
deriving DecidableEq, Repr

/-- JavaScript truthiness of a value (`value ? a : b`). -/
def truthy : JSValue → Bool
  | .str s => s ≠ ""
  | .num n => n ≠ 0
  | .nan => false
  | .bool b => b

/-- JavaScript `String(value)` coercion. -/
def jsToString : JSValue → String
  | .str s => s
  | .num n => toString n
  | .nan => "NaN"
  | .bool b => if b then "true" else "false"

/-- Parse an optionally-signed decimal integer literal, the integer fragment
of JavaScript numeric-string conversion. -/
def parseIntLit (l : List Char) : Option Int :=
  let (sign, digits) :=
    match l with
    | '-' :: rest => ((-1 : Int), rest)
    | '+' :: rest => ((1 : Int), rest)
    | _ => ((1 : Int), l)
  if digits = [] then none
  else if digits.all (fun c => c.isDigit) then
    some (sign * (digits.foldl (fun acc c => acc * 10 + ((c.toNat - 48 : Nat) : Int)) 0))
  else none

/-- JavaScript `Number(value)` coercion (on the integer fragment of numeric
strings; non-integer numeric strings are outside the model and map to `NaN`). -/
def jsToNumber : JSValue → JSValue
  | .bool b => .num (if b then 1 else 0)
  | .num n => .num n
  | .nan => .nan
  | .str s =>
    let t := jsTrim s
    if t = "" then .num 0
    else
      match parseIntLit t.data with
      | some n => .num n
      | none => .nan

/-- One hexadecimal digit character (lower case), for JSON escapes. -/
def hexDigitChar (n : Nat) : Char :=
  if n < 10 then Char.ofNat (48 + n) else Char.ofNat (87 + n)

/-- JSON escape of one character, as produced by `JSON.stringify` on strings. -/
def jsonEscapeChar (c : Char) : List Char :=
  if c = '"' then ['\\', '"']
  else if c = '\\' then ['\\', '\\']
  else if c = '\n' then ['\\', 'n']
  else if c = '\r' then ['\\', 'r']
  else if c = '\t' then ['\\', 't']
  else if c = '\x08' then ['\\', 'b']
  else if c = '\x0c' then ['\\', 'f']
  else if c.toNat < 32 then
    '\\' :: 'u' :: [hexDigitChar (c.toNat / 4096 % 16), hexDigitChar (c.toNat / 256 % 16),
      hexDigitChar (c.toNat / 16 % 16), hexDigitChar (c.toNat % 16)]
  else [c]

/-- `JSON.stringify` applied to a string. -/
def jsonStringifyString (s : String) : String :=
  String.mk ('"' :: s.data.flatMap jsonEscapeChar ++ ['"'])

/-! ## The filter registry (`src/TemplateFilters.js`)

Each entry is a pure `value -> value` function; `TemplateFilters[name]` is
modelled by `templateFiltersLookup`. -/

/-- Filter `string`: `value => JSON.stringify(String(value))`. -/
def filterString (v : JSValue) : JSValue := .str (jsonStringifyString (jsToString v))

/-- Filter `upper`: `value => String(value).toUpperCase()`. -/
def filterUpper (v : JSValue) : JSValue := .str (jsToUpperCase (jsToString v))

/-- Filter `lower`: `value => String(value).toLowerCase()`. -/
def filterLower (v : JSValue) : JSValue := .str (jsToLowerCase (jsToString v))

/-- Capitalize one word: first character upper-cased, the rest lower-cased. -/
def capitalizeWord : List Char → List Char
  | [] => []
  | c :: rest => Char.toUpper c :: rest.map Char.toLower

/-- Filter `capitalize`: `str.charAt(0).toUpperCase() + str.slice(1).toLowerCase()`. -/
def filterCapitalize (v : JSValue) : JSValue :=
  .str (String.mk (capitalizeWord (jsToString v).data))

/-- Filter `title`: split on spaces, capitalize each word, join with spaces. -/
def filterTitle (v : JSValue) : JSValue :=
  .str (String.mk (jsJoinSpace ((jsSplitSpace (jsToString v).data).map capitalizeWord)))

/-- Filter `trim`: `value => String(value).trim()`. -/
def filterTrim (v : JSValue) : JSValue := .str (jsTrim (jsToString v))

/-- Filter `number`: `value => Number(value)`. -/
def filterNumber (v : JSValue) : JSValue := jsToNumber v

/-- Filter `boolean`, with the explicit true/false string table of the source. -/
def filterBoolean (v : JSValue) : JSValue :=
  match v with
  | .bool b => .bool b
  | .str s =>
    let lower := jsToLowerCase s
    if lower = "true" || lower = "1" || lower = "yes" then .bool true
    else if lower = "false" || lower = "0" || lower = "no" then .bool false
    else .bool (truthy (.str s))
  | v => .bool (truthy v)

/-- Filter `abs`: `Math.abs(Number(value))`. -/
def filterAbs (v : JSValue) : JSValue :=
  match jsToNumber v with
  | .num n => .num (n.natAbs : Int)
  | _ => .nan

/-- Filter `round` (identity on the integer fragment of the model). -/
def filterRound (v : JSValue) : JSValue :=
  match jsToNumber v with
  | .num n => .num n
  | _ => .nan

/-- Filter `floor` (identity on the integer fragment of the model). -/
def filterFloor (v : JSValue) : JSValue :=
  match jsToNumber v with
  | .num n => .num n
  | _ => .nan

/-- Filter `ceil` (identity on the integer fragment of the model). -/
def filterCeil (v : JSValue) : JSValue :=
  match jsToNumber v with
  | .num n => .num n
  | _ => .nan

/-- Filter `default` with its default second argument `""`:
`(value === null or undefined or empty string) ? '' : value`. -/
def filterDefault (v : JSValue) : JSValue :=
  if v = .str "" then .str "" else v

/-- `TemplateFilters[name]`: the registry of `src/TemplateFilters.js`. -/
def templateFiltersLookup : String → Option (JSValue → JSValue)
  | "string" => some filterString
  | "upper" => some filterUpper
  | "lower" => some filterLower
  | "capitalize" => some filterCapitalize
  | "title" => some filterTitle
  | "trim" => some filterTrim
  | "number" => some filterNumber
  | "boolean" => some filterBoolean
  | "abs" => some filterAbs
  | "round" => some filterRound
  | "floor" => some filterFloor
  | "ceil" => some filterCeil
  | "default" => some filterDefault
  | _ => none

/-! ## Parse-tree nodes

The shape produced by the external `ebnf` parser and consumed by every
`RuleTemplate` method: a rule-name tag, the exact matched source text, the
half-open character span `[start, stop)` into the parsed text (the source
calls the upper bound `end`, a reserved word in Lean), and the ordered
children. -/

inductive Node where
  | mk (ty : String) (text : String) (start stop : Nat) (children : List Node)
deriving Repr

/-- The `type` field of an AST node (its grammar rule name). -/
def Node.type : Node → String
  | .mk ty _ _ _ _ => ty

/-- The `text` field of an AST node (the exact matched source substring). -/
def Node.text : Node → String
  | .mk _ text _ _ _ => text

/-- The `start` offset of an AST node. -/
def Node.start : Node → Nat
  | .mk _ _ s _ _ => s

/-- The `end` offset of an AST node. -/
def Node.stop : Node → Nat
  | .mk _ _ _ e _ => e

/-- The ordered children of an AST node. -/
def Node.children : Node → List Node
  | .mk _ _ _ _ cs => cs

/-! ## The documented parse-tree invariant

`WF` is the data-model invariant stated for parser output: children appear in
order inside the parent's span, and each child's `text` is exactly the slice
of the parent's `text` at the child's offsets, so concatenating child texts
with the literal gaps between them reproduces the parent's text. -/

mutual

/-- Well-formedness of a node: consistent span and text length, plus
well-formed, ordered, text-consistent children. -/
def WF : Node → Bool
  | .mk _ text s e cs =>
    decide (s ≤ e) && decide (text.length = e - s) && WFChildren text s e s cs

/-- Well-formedness of a child list of a parent with text `ptext` and span
`[pstart, pstop)`, scanning left to right from position `lastEnd`. -/
def WFChildren (ptext : String) (pstart pstop : Nat) : Nat → List Node → Bool
  | _, [] => true
  | lastEnd, c :: cs =>
    decide (lastEnd ≤ c.start) && decide (c.stop ≤ pstop) &&
    decide (c.text = sliceNat ptext (c.start - pstart) (c.stop - pstart)) &&
    WF c && WFChildren ptext pstart pstop c.stop cs

end

/-! ## Bindings -/

/-- One caller-supplied binding as found in the `variables` object: either a
non-object JavaScript value, or an object whose `value` and `type` keys may
each be present or absent.  (`type`, when present, is modelled as a string;
a non-string `type` behaves like an unknown type string in every check.) -/
inductive BindingEntry where
  | notObject (v : JSValue)
  | obj (value? : Option JSValue) (type? : Option String)
deriving DecidableEq, Repr

/-- The `variables` argument of `validate`/`prepare`: a JavaScript object,
modelled as an association list with unique keys in insertion order. -/
def Bindings : Type := List (String × BindingEntry)

/-- `variables.hasOwnProperty(name)` / `variables[name]`. -/
def bindingsLookup (vars : Bindings) (name : String) : Option BindingEntry :=
  match List.find? (fun p => p.1 = name) vars with
  | some p => some p.2
  | none => none

/-- The closed `VariableTypes` enum of `src/RuleTemplater.js`. -/
def VariableTypes : List String :=
  ["string", "number", "boolean", "object", "time period", "time value",
   "string array", "number array", "boolean array", "object array"]

/-! ## Variable extraction (`_extractFilterName`, `_extractVariableFromNode`) -/

/-- `_extractFilterName(node)`: the trimmed text of the
`template_filter_name` child, or `none` when absent or empty. -/
def extractFilterName (node : Node) : Option String :=
  match node.children.find? (fun c => c.type = "template_filter_name") with
  | none => none
  | some filterNameNode =>
    if filterNameNode.text = "" then none
    else some (jsTrim filterNameNode.text)

/-- The filter-collection loop of `_extractVariableFromNode`: every
`template_filter_call` child contributes its (truthy) extracted name. -/
def collectFilters (cs : List Node) : List String :=
  cs.foldl
    (fun acc c =>
      if c.type = "template_filter_call" then
        match extractFilterName c with
        | some filterName => if filterName = "" then acc else acc ++ [filterName]
        | none => acc
      else acc)
    []

/-- The decoded content of one placeholder node: variable name, filter chain
and source span. -/
structure VarInfo where
  name : String
  filters : List String
  start : Nat
  stop : Nat
deriving DecidableEq, Repr

/-- `_extractVariableFromNode(node)`: decode a `template_value` node into its
variable name (trimmed `template_path` text), filter chain, and span. -/
def extractVariableFromNode (node : Node) : Option VarInfo :=
  if node.type ≠ "template_value" then none
  else
    match node.children.find? (fun c => c.type = "template_expr") with
    | none => none
    | some templateExpr =>
      match templateExpr.children.find? (fun c => c.type = "template_path") with
      | none => none
      | some templatePath =>
        if templatePath.text = "" then none
        else
          some { name := jsTrim templatePath.text,
                 filters := collectFilters templateExpr.children,
                 start := node.start, stop := node.stop }

/-- One grouped variable as returned by `extractVariables`: name, the filter
chain of the first occurrence, and one `(start, end)` pair per occurrence. -/
structure ExtractedVariable where
  name : String
  filters : List String
  positions : List (Nat × Nat)
deriving DecidableEq, Repr

/-- One step of `extractVariables`'s per-occurrence bookkeeping: push the
position onto an existing entry of the same name, else append a new entry
(the JavaScript `Map` keeps insertion order, modelled by the list order). -/
def insertOcc (acc : List ExtractedVariable) (vi : VarInfo) : List ExtractedVariable :=
  if acc.any (fun ev => ev.name = vi.name) then
    acc.map (fun ev =>
      if ev.name = vi.name then
        { ev with positions := ev.positions ++ [(vi.start, vi.stop)] }
      else ev)
  else
    acc ++ [{ name := vi.name, filters := vi.filters, positions := [(vi.start, vi.stop)] }]

mutual

/-- The `traverse` closure of `extractVariables`: visit the node (recording a
`template_value` occurrence), then its children, threading the accumulator. -/
def extractTraverse (acc : List ExtractedVariable) : Node → List ExtractedVariable
  | .mk ty text s e cs =>
    let acc2 :=
      if ty = "template_value" then
        match extractVariableFromNode (.mk ty text s e cs) with
        | some vi => insertOcc acc vi
        | none => acc
      else acc
    extractTraverseList acc2 cs

/-- `traverse` over a child list, left to right. -/
def extractTraverseList (acc : List ExtractedVariable) : List Node → List ExtractedVariable
  | [] => acc
  | c :: cs => extractTraverseList (extractTraverse acc c) cs

end

mutual

/-- The pre-order list of decoded placeholder occurrences that
`extractVariables`'s traversal records (it also descends into the children of
a `template_value` node). -/
def templateOccurrences : Node → List VarInfo
  | .mk ty text s e cs =>
    (if ty = "template_value" then
      match extractVariableFromNode (.mk ty text s e cs) with
      | some vi => [vi]
      | none => []
    else []) ++ templateOccurrencesList cs

/-- Pre-order placeholder occurrences of a child list. -/
def templateOccurrencesList : List Node → List VarInfo
  | [] => []
  | c :: cs => templateOccurrences c ++ templateOccurrencesList cs

end

mutual

/-- The outermost `template_value` nodes of a subtree, in depth-first
left-to-right order: exactly the placeholder nodes whose replacement
`_rebuildFromAST` splices (it does not descend below a `template_value`). -/
def outermostTemplates : Node → List Node
  | .mk ty text s e cs =>
    if ty = "template_value" then [.mk ty text s e cs]
    else outermostTemplatesList cs

/-- Outermost `template_value` nodes below a child list. -/
def outermostTemplatesList : List Node → List Node
  | [] => []
  | c :: cs => outermostTemplates c ++ outermostTemplatesList cs

end

/-! ## The parsed template object -/

/-- A parsed template: the constructor stores the original (untrimmed)
template text and the AST. -/
structure RuleTemplate where
  ruleTemplateText : String
  ast : Node

/-- `RuleTemplate.parse(ruleTemplate)`: parse the trimmed text with the
cached `ebnf` parser (entry rule `statement_main`) — the parser itself is the
external dependency, passed here as the `getAST` oracle — and store the
original text alongside the AST. -/
def RuleTemplate.parse (getAST : String → Node) (ruleTemplate : String) : RuleTemplate :=
  { ruleTemplateText := ruleTemplate, ast := getAST (jsTrim ruleTemplate) }

/-- `extractVariables()`: traverse the AST grouping occurrences by name;
the JavaScript `Map`-to-array conversion preserves insertion order. -/
def RuleTemplate.extractVariables (t : RuleTemplate) : List ExtractedVariable :=
  extractTraverse [] t.ast

/-! ## validate -/

/-- One structured validation error, in place of the source's message string;
each constructor carries the data the message interpolates. -/
inductive ValidationError where
  | notProvided (name : String)
  | mustBeObject (name : String)
  | invalidType (ty : String) (name : String)
deriving DecidableEq, Repr

/-- The result shape of `validate`. -/
structure ValidationResult where
  valid : Bool
  errors : List ValidationError
deriving DecidableEq, Repr

/-- The per-variable body of `validate`'s loop: at most one error per
variable, with the source's `continue` structure; a present `type` is only
checked when truthy (non-empty). -/
def validateOne (vars : Bindings) (varInfo : ExtractedVariable) : Option ValidationError :=
  match bindingsLookup vars varInfo.name with
  | none => some (.notProvided varInfo.name)
  | some (.notObject _) => some (.mustBeObject varInfo.name)
  | some (.obj _ type?) =>
    match type? with
    | some ty =>
      if ty ≠ "" ∧ ¬ VariableTypes.contains ty then some (.invalidType ty varInfo.name)
      else none
    | none => none

/-- `validate(variables)`: collect one error per problematic variable over
all extracted variables (no early abort); `valid` iff no errors. -/
def RuleTemplate.validate (t : RuleTemplate) (vars : Bindings) : ValidationResult :=
  let errors :=
    (t.extractVariables).foldl
      (fun errs varInfo =>
        match validateOne vars varInfo with
        | some err => errs ++ [err]
        | none => errs)
      []
  { valid := errors.length = 0, errors := errors }

/-! ## prepare -/

/-- The errors `prepare` can raise, in place of the source's `Error` message
strings; each constructor carries exactly the name the message identifies. -/
inductive PrepError where
  | extractFailed
  | notProvided (name : String)
  | mustBeObjectWithValue (name : String)
  | missingType (name : String)
  | invalidType (ty : String) (name : String)
  | unknownFilter (filterName : String)
deriving DecidableEq, Repr

/-- The filter-application loop of `_computeTemplateReplacement`: apply each
filter of the chain in order, left to right, failing on the first name not in
the registry. -/
def applyFilters : List String → JSValue → Except PrepError JSValue
  | [], v => .ok v
  | f :: fs, v =>
    match templateFiltersLookup f with
    | none => .error (.unknownFilter f)
    | some fn => applyFilters fs (fn v)

/-- The type-less formatting branch of `_computeTemplateReplacement`:
string values are double-quoted with backslashes escaped before quotes. -/
def formatByType (ty : String) (value : JSValue) : String :=
  if ty = "string" then
    "\"" ++ jsReplaceAllChar (jsReplaceAllChar (jsToString value) '\\' ['\\', '\\']) '"' ['\\', '"'] ++ "\""
  else if ty = "number" then jsToString value
  else if ty = "boolean" then (if truthy value then "true" else "false")
  else jsToString value

/-- `_computeTemplateReplacement(node, variables)`: decode the placeholder,
check the binding contract (present, object with `value`, `type` present and
in the enum), then either run the filter chain and coerce, or format by the
declared type. -/
def computeTemplateReplacement (node : Node) (vars : Bindings) : Except PrepError String :=
  match extractVariableFromNode node with
  | none => .error .extractFailed
  | some templateInfo =>
    match bindingsLookup vars templateInfo.name with
    | none => .error (.notProvided templateInfo.name)
    | some (.notObject _) => .error (.mustBeObjectWithValue templateInfo.name)
    | some (.obj none _) => .error (.mustBeObjectWithValue templateInfo.name)
    | some (.obj (some value) type?) =>
      match type? with
      | none => .error (.missingType templateInfo.name)
      | some ty =>
        if ¬ VariableTypes.contains ty then .error (.invalidType ty templateInfo.name)
        else if templateInfo.filters ≠ [] then
          match applyFilters templateInfo.filters value with
          | .error e => .error e
          | .ok result => .ok (jsToString result)
        else .ok (formatByType ty value)

mutual

/-- `_rebuildFromAST(node, variables)`: a `template_value` node becomes its
computed replacement; a leaf re-emits its text; an interior node re-emits the
literal gap before each child (when the child starts past the scan position)
followed by the child's rebuilt text, then the trailing gap. -/
def rebuildFromAST (vars : Bindings) : Node → Except PrepError String
  | .mk ty text s e cs =>
    if ty = "template_value" then
      computeTemplateReplacement (.mk ty text s e cs) vars
    else if cs.isEmpty then .ok text
    else
      match rebuildChildren vars text s cs s "" with
      | .error err => .error err
      | .ok (result, lastEnd) =>
        if lastEnd < e then
          .ok (result ++ jsSubstring text ((lastEnd : Int) - (s : Int)) ((e : Int) - (s : Int)))
        else .ok result

/-- The child loop of `_rebuildFromAST`, threading the accumulated output and
the scan position `lastEnd`. -/
def rebuildChildren (vars : Bindings) (originalText : String) (nstart : Nat) :
    List Node → Nat → String → Except PrepError (String × Nat)
  | [], lastEnd, acc => .ok (acc, lastEnd)
  | c :: cs, lastEnd, acc =>
    let acc2 :=
      if c.start > lastEnd then
        acc ++ jsSubstring originalText ((lastEnd : Int) - (nstart : Int)) ((c.start : Int) - (nstart : Int))
      else acc
    match rebuildFromAST vars c with
    | .error err => .error err
    | .ok childText => rebuildChildren vars originalText nstart cs c.stop (acc2 ++ childText)

end

/-- `prepare(variables)`: rebuild the rule string from the AST. -/
def RuleTemplate.prepare (t : RuleTemplate) (vars : Bindings) : Except PrepError String :=
  rebuildFromAST vars t.ast

/-! ## Grammar composition (module initialisation of `src/RuleTemplater.js`)

The `ebnf` rule objects are mutable JavaScript objects held by reference in
rule arrays.  To state mutation facts faithfully the composition is modelled
with an explicit object store (`heap : List GRule`) and rule lists as lists
of store indices: `[...RuleParserRules]` copies the index list (not the
objects), `extendedGrammar[idx] = rule` writes the index list, and
`extendedGrammar[valueAtomIdx].bnf.push(...)` writes the store. -/

/-- One grammar rule object: a name and its alternative productions. -/
structure GRule where
  name : String
  bnf : List (List String)
deriving DecidableEq, Repr

/-- The default rule used for out-of-range store reads (never reached on the
concrete inputs considered). -/
def defaultGRule : GRule := { name := "", bnf := [] }

/-- Read a rule object from the store. -/
def derefRule (heap : List GRule) (i : Nat) : GRule :=
  heap.getD i defaultGRule

/-- The merge loop (lines 37-45): for each extension rule, replace the
same-named rule in place, else append.  Pure on the store: only the copied
index list is updated. -/
def mergeGrammarIdx (heap : List GRule) (host tmpl : List Nat) : List Nat :=
  tmpl.foldl
    (fun acc ti =>
      match acc.findIdx? (fun ei => (derefRule heap ei).name = (derefRule heap ti).name) with
      | some i => acc.set i ti
      | none => acc ++ [ti])
    host

/-- Value-level statement of the same merge: replace-by-name in place, else
append, over rule objects directly. -/
def mergeGrammar (host tmpl : List GRule) : List GRule :=
  tmpl.foldl
    (fun acc r =>
      match acc.findIdx? (fun q => q.name = r.name) with
      | some i => acc.set i r
      | none => acc ++ [r])
    host

/-- `rule.bnf.push(['template_value'])`. -/
def pushTemplateAlt (r : GRule) : GRule :=
  { r with bnf := r.bnf ++ [["template_value"]] }

/-- Lines 48-51: find `value_atom` in the merged list and push the
`template_value` alternative onto that rule object — a store write. -/
def valueAtomInject (heap : List GRule) (ext : List Nat) : List GRule :=
  match ext.findIdx? (fun ei => (derefRule heap ei).name = "value_atom") with
  | some i =>
    let p := ext.getD i 0
    heap.set p (pushTemplateAlt (derefRule heap p))
  | none => heap

/-- The whole module initialisation (lines 36-51): merge, then inject the
`value_atom` alternative; returns the final store and the composed
`ParserRules` index list. -/
def initExtendedGrammar (heap : List GRule) (host tmpl : List Nat) :
    List GRule × List Nat :=
  let ext := mergeGrammarIdx heap host tmpl
  (valueAtomInject heap ext, ext)

/-! ## Specification-side definitions (from the spec's words, for refinement
statements; each is compared against the source-derived functions above) -/

/-- Spec-side escaping: one pass over the value, escaping each backslash and
each double quote exactly once (no character is double-escaped). -/
def escapeSpecChar (c : Char) : List Char :=
  if c = '\\' then ['\\', '\\']
  else if c = '"' then ['\\', '"']
  else [c]

/-- Spec-side string escaping, single pass. -/
def escapeSpec (s : String) : String :=
  String.mk (s.data.flatMap escapeSpecChar)

/-- Spec-side grouping of placeholder occurrences: one entry per distinct
name in first-seen order; the filters of the first occurrence; one position
per occurrence in traversal order. -/
def extractVariablesSpec : List VarInfo → List ExtractedVariable
  | [] => []
  | o :: rest =>
    { name := o.name, filters := o.filters,
      positions := (o :: rest.filter (fun p => p.name = o.name)).map (fun p => (p.start, p.stop)) } ::
    extractVariablesSpec (rest.filter (fun p => p.name ≠ o.name))
termination_by l => l.length
decreasing_by
  simp only [List.length_cons]
  exact Nat.lt_succ_of_le (List.length_filter_le _ _)

/-- `mapM` over `Except`, written out so that its equations are in full
control of the proofs. -/
def mapExcept (f : α → Except ε β) : List α → Except ε (List β)
  | [] => .ok []
  | a :: as =>
    match f a with
    | .error e => .error e
    | .ok b =>
      match mapExcept f as with
      | .error e => .error e
      | .ok bs => .ok (b :: bs)

/-- Spec-side reconstruction: starting at `pos`, copy the literal source up
to each placeholder span, emit that span's own replacement, and finish with
the literal tail up to `stop`; all indices are relative to `base`, the start
offset of the text `src`. -/
def spliceReps (src : String) (base : Nat) : Nat → List ((Nat × Nat) × String) → Nat → String
  | pos, [], stop => sliceNat src (pos - base) (stop - base)
  | pos, ((s1, e1), r) :: rest, stop =>
    sliceNat src (pos - base) (s1 - base) ++ r ++ spliceReps src base e1 rest stop

/-- The spans of a node list. -/
def nodeSpans (ps : List Node) : List (Nat × Nat) :=
  ps.map (fun p => (p.start, p.stop))

/-- Ordered, in-range segments: each span lies after `pos`, is well-formed,
and the list ends before `stop`. -/
def chainOK (pos : Nat) : List ((Nat × Nat) × String) → Nat → Prop
  | [], stop => pos ≤ stop
  | ((s1, e1), _) :: rest, stop => pos ≤ s1 ∧ s1 ≤ e1 ∧ chainOK e1 rest stop

mutual

/-- A subtree containing no placeholder node at all. -/
def noTemplate : Node → Bool
  | .mk ty _ _ _ cs => decide (ty ≠ "template_value") && noTemplateList cs

/-- No placeholder node below any member of a child list. -/
def noTemplateList : List Node → Bool
  | [] => true
  | c :: cs => noTemplate c && noTemplateList cs

end

/-! ## Concrete parse trees

Hand-built models of the `ebnf` parser output for the templates exercised by
the repository's test-suite, used as witnesses.  Offsets match the expected
positions asserted by `test/RuleTemplater.test.js`. -/

/-- The AST of a filterless placeholder `$\x7bNAME\x7d` whose span starts at `s`. -/
def tvNode (name : String) (s : Nat) : Node :=
  Node.mk "template_value" ("$\x7b" ++ name ++ "\x7d") s (s + name.length + 3)
    [Node.mk "TEMPLATE_BEGIN" "$\x7b" s (s + 2) [],
     Node.mk "template_expr" name (s + 2) (s + 2 + name.length)
       [Node.mk "template_path" name (s + 2) (s + 2 + name.length)
         [Node.mk "IDENT" name (s + 2) (s + 2 + name.length) []]],
     Node.mk "TEMPLATE_END" "\x7d" (s + name.length + 2) (s + name.length + 3) []]

/-- A model of the parse tree of `'$\x7bVALUE\x7d > 10 && $\x7bVALUE\x7d < 20'`
(the multiplicity example of the spec and test-suite). -/
def astVal : Node :=
  Node.mk "statement_main" "$\x7bVALUE\x7d > 10 && $\x7bVALUE\x7d < 20" 0 30
    [Node.mk "statement" "$\x7bVALUE\x7d > 10 && $\x7bVALUE\x7d < 20" 0 30
      [Node.mk "expression" "$\x7bVALUE\x7d > 10" 0 13
        [Node.mk "standard_expression" "$\x7bVALUE\x7d > 10" 0 13
          [Node.mk "result" "$\x7bVALUE\x7d" 0 8
            [Node.mk "value_atom" "$\x7bVALUE\x7d" 0 8 [tvNode "VALUE" 0]],
           Node.mk "basic_rhs" "> 10" 9 13
             [Node.mk "operator" ">" 9 10 [Node.mk "GT" ">" 9 10 []],
              Node.mk "result" "10" 11 13 [Node.mk "number" "10" 11 13 []]]]],
       Node.mk "AND" " && " 13 17 [],
       Node.mk "expression" "$\x7bVALUE\x7d < 20" 17 30
        [Node.mk "standard_expression" "$\x7bVALUE\x7d < 20" 17 30
          [Node.mk "result" "$\x7bVALUE\x7d" 17 25
            [Node.mk "value_atom" "$\x7bVALUE\x7d" 17 25 [tvNode "VALUE" 17]],
           Node.mk "basic_rhs" "< 20" 26 30
             [Node.mk "operator" "<" 26 27 [Node.mk "LT" "<" 26 27 []],
              Node.mk "result" "20" 28 30 [Node.mk "number" "20" 28 30 []]]]]]]

/-- A model of the parse tree of `'$\x7bA\x7d > 1 && $\x7bB\x7d < 2'`
(two distinct placeholder names). -/
def astAB : Node :=
  Node.mk "statement_main" "$\x7bA\x7d > 1 && $\x7bB\x7d < 2" 0 20
    [Node.mk "statement" "$\x7bA\x7d > 1 && $\x7bB\x7d < 2" 0 20
      [Node.mk "expression" "$\x7bA\x7d > 1" 0 8
        [Node.mk "standard_expression" "$\x7bA\x7d > 1" 0 8
          [Node.mk "result" "$\x7bA\x7d" 0 4
            [Node.mk "value_atom" "$\x7bA\x7d" 0 4 [tvNode "A" 0]],
           Node.mk "basic_rhs" "> 1" 5 8
             [Node.mk "operator" ">" 5 6 [Node.mk "GT" ">" 5 6 []],
              Node.mk "result" "1" 7 8 [Node.mk "number" "1" 7 8 []]]]],
       Node.mk "AND" " && " 8 12 [],
       Node.mk "expression" "$\x7bB\x7d < 2" 12 20
        [Node.mk "standard_expression" "$\x7bB\x7d < 2" 12 20
          [Node.mk "result" "$\x7bB\x7d" 12 16
            [Node.mk "value_atom" "$\x7bB\x7d" 12 16 [tvNode "B" 12]],
           Node.mk "basic_rhs" "< 2" 17 20
             [Node.mk "operator" "<" 17 18 [Node.mk "LT" "<" 17 18 []],
              Node.mk "result" "2" 19 20 [Node.mk "number" "2" 19 20 []]]]]]]

/-- A model of the parse tree of `'TRUE'` (a template with no placeholders). -/
def astTrue : Node :=
  Node.mk "statement_main" "TRUE" 0 4
    [Node.mk "statement" "TRUE" 0 4
      [Node.mk "expression" "TRUE" 0 4
        [Node.mk "standard_expression" "TRUE" 0 4
          [Node.mk "result" "TRUE" 0 4
            [Node.mk "value" "TRUE" 0 4 [Node.mk "true" "TRUE" 0 4 []]]]]]]

/-- A model of the parse tree of `'$\x7bX\x7d > 1'` (the trimmed form of the
input `'  $\x7bX\x7d > 1'`). -/
def astX : Node :=
  Node.mk "statement_main" "$\x7bX\x7d > 1" 0 8
    [Node.mk "statement" "$\x7bX\x7d > 1" 0 8
      [Node.mk "expression" "$\x7bX\x7d > 1" 0 8
        [Node.mk "standard_expression" "$\x7bX\x7d > 1" 0 8
          [Node.mk "result" "$\x7bX\x7d" 0 4
            [Node.mk "value_atom" "$\x7bX\x7d" 0 4 [tvNode "X" 0]],
           Node.mk "basic_rhs" "> 1" 5 8
             [Node.mk "operator" ">" 5 6 [Node.mk "GT" ">" 5 6 []],
              Node.mk "result" "1" 7 8 [Node.mk "number" "1" 7 8 []]]]]]]

/-- The AST of `'$\x7bE|trim|upper\x7d'` as a bare placeholder node (filter
chain `trim` then `upper`). -/
def tvFilt : Node :=
  Node.mk "template_value" "$\x7bE|trim|upper\x7d" 0 15
    [Node.mk "TEMPLATE_BEGIN" "$\x7b" 0 2 [],
     Node.mk "template_expr" "E|trim|upper" 2 14
       [Node.mk "template_path" "E" 2 3 [Node.mk "IDENT" "E" 2 3 []],
        Node.mk "template_pipe" "|" 3 4 [],
        Node.mk "template_filter_call" "trim" 4 8
          [Node.mk "template_filter_name" "trim" 4 8 [Node.mk "IDENT" "trim" 4 8 []]],
        Node.mk "template_pipe" "|" 8 9 [],
        Node.mk "template_filter_call" "upper" 9 14
          [Node.mk "template_filter_name" "upper" 9 14 [Node.mk "IDENT" "upper" 9 14 []]]],
     Node.mk "TEMPLATE_END" "\x7d" 14 15 []]

/-! ## Concrete bindings and grammar stores for the witnesses -/

/-- Binding map `VALUE : number 15`. -/
def bindingsVal : Bindings := [("VALUE", .obj (some (.num 15)) (some "number"))]

/-- Binding map providing `A` but not `B`. -/
def bindingsAB : Bindings := [("A", .obj (some (.num 5)) (some "number"))]

/-- Binding map for the escaping example of the test-suite. -/
def bindingsEsc : Bindings :=
  [("E", .obj (some (.str "test\"value\\with\\slashes")) (some "string"))]

/-- Binding map for the filter-chain example of the test-suite. -/
def bindingsFilt : Bindings := [("E", .obj (some (.str "  hello  ")) (some "string"))]

/-- Binding map whose entry has a `value` but lacks `type`. -/
def bindingsNoType : Bindings := [("X", .obj (some (.num 1)) none)]

/-- Binding maps for the boolean-truthiness examples. -/
def bindingsBoolNum : Bindings := [("B", .obj (some (.num 0)) (some "boolean"))]

/-- Binding map with an empty-string value of declared type boolean. -/
def bindingsBoolEmpty : Bindings := [("B", .obj (some (.str "")) (some "boolean"))]

/-- Binding map with the string value "false" of declared type boolean. -/
def bindingsBoolStr : Bindings := [("B", .obj (some (.str "false")) (some "boolean"))]

/-- A concrete rule store: the host's `value_atom` object and the template
extension's fresh `template_value` object. -/
def heapVA : List GRule :=
  [{ name := "value_atom", bnf := [["number"], ["string"]] },
   { name := "template_value", bnf := [["TEMPLATE_BEGIN", "template_expr", "TEMPLATE_END"]] }]

/-- The host rule list: it owns the `value_atom` object. -/
def hostVA : List Nat := [0]

/-- The template-extension rule list (no `value_atom` override). -/
def tmplVA : List Nat := [1]

/-- Append new occurrence spans to an already-grouped variable. -/
def addPositions (ev : ExtractedVariable) (ps : List (Nat × Nat)) : ExtractedVariable :=
  { ev with positions := ev.positions ++ ps }

/-- The spans of a list of occurrences. -/
def spansOf (os : List VarInfo) : List (Nat × Nat) :=
  os.map (fun o => (o.start, o.stop))

/-- The per-entry update `insertOcc` performs when the name already exists. -/
def pushSpan (o : VarInfo) (ev : ExtractedVariable) : ExtractedVariable :=
  if ev.name = o.name then { ev with positions := ev.positions ++ [(o.start, o.stop)] }
  else ev

/-- The exhaustive description of the error a failing replacement raises:
each case records both the offending condition and that the error names the
offending variable or filter. -/
def describesOffense (node : Node) (vars : Bindings) (e : PrepError) : Prop :=
  match extractVariableFromNode node with
  | none => e = .extractFailed
  | some info =>
    (bindingsLookup vars info.name = none ∧ e = .notProvided info.name) ∨
    ((∃ v, bindingsLookup vars info.name = some (.notObject v)) ∧
      e = .mustBeObjectWithValue info.name) ∨
    ((∃ ty?, bindingsLookup vars info.name = some (.obj none ty?)) ∧
      e = .mustBeObjectWithValue info.name) ∨
    ((∃ v, bindingsLookup vars info.name = some (.obj (some v) none)) ∧
      e = .missingType info.name) ∨
    (∃ v ty, bindingsLookup vars info.name = some (.obj (some v) (some ty)) ∧
      ¬ VariableTypes.contains ty ∧ e = .invalidType ty info.name) ∨
    (∃ f, f ∈ info.filters ∧ templateFiltersLookup f = none ∧ e = .unknownFilter f)

theorem sliceNat_append (s : String) {a b c : Nat} (hab : a ≤ b) (hbc : b ≤ c) :
    sliceNat s a b ++ sliceNat s b c = sliceNat s a c := by
  show String.mk (((s.data.drop a).take (b - a)) ++ ((s.data.drop b).take (c - b))) = _
  simp only [sliceNat]
  congr 1
  have hc : c - a = (b - a) + (c - b) := by omega
  rw [hc, List.take_add]
  have hd : List.drop (b - a) (s.data.drop a) = s.data.drop b := by
    rw [List.drop_drop]
    congr 1
    omega
  rw [hd]

theorem sliceNat_rebase {ptext ctext : String} {ps cs ce x y : Nat}
    (hct : ctext = sliceNat ptext (cs - ps) (ce - ps))
    (h1 : ps ≤ cs) (h2 : cs ≤ x) (h3 : y ≤ ce) :
    sliceNat ctext (x - cs) (y - cs) = sliceNat ptext (x - ps) (y - ps) := by
  subst hct
  simp only [sliceNat]
  congr 1
  rcases le_or_lt y x with hyx | hxy
  · have e1 : (y - cs) - (x - cs) = 0 := by omega
    have e2 : (y - ps) - (x - ps) = 0 := by omega
    rw [e1, e2]
    simp
  · have hcse : cs ≤ ce := by omega
    rw [List.drop_take, List.drop_drop]
    have e1 : (ce - ps) - (cs - ps) - (x - cs) = ce - x := by omega
    have e2 : (cs - ps) + (x - cs) = x - ps := by omega
    rw [e1, e2, List.take_take]
    have e3 : (y - cs) - (x - cs) = y - x := by omega
    have e4 : (y - ps) - (x - ps) = y - x := by omega
    rw [e3, e4]
    congr 1
    omega

theorem jsSubstring_nat (s : String) {u v : Nat} (huv : u ≤ v) :
    jsSubstring s (u : Int) (v : Int) = sliceNat s u v := by
  simp only [jsSubstring]
  have hmaxu : max (u : Int) 0 = (u : Int) := by omega
  have hmaxv : max (v : Int) 0 = (v : Int) := by omega
  rw [hmaxu, hmaxv]
  have hminu : min (u : Int) ((s.length : Nat) : Int) = ((min u s.length : Nat) : Int) := by omega
  have hminv : min (v : Int) ((s.length : Nat) : Int) = ((min v s.length : Nat) : Int) := by omega
  rw [hminu, hminv]
  have hle : ((min u s.length : Nat) : Int) ≤ ((min v s.length : Nat) : Int) := by omega
  rw [if_pos hle]
  simp only [Int.toNat_natCast]
  simp only [sliceNat]
  congr 1
  have hlen : s.data.length = s.length := rfl
  rcases le_or_lt u s.length with hu | hu
  · rw [Nat.min_eq_left hu]
    rcases le_or_lt v s.length with hv | hv
    · rw [Nat.min_eq_left hv]
    · rw [Nat.min_eq_right (Nat.le_of_lt hv)]
      rw [List.take_of_length_le (by rw [List.length_drop, hlen]),
        List.take_of_length_le (by rw [List.length_drop, hlen]; omega)]
  · rw [Nat.min_eq_right (Nat.le_of_lt hu)]
    have hdu : s.data.drop u = [] := List.drop_eq_nil_of_le (by omega)
    have hdl : s.data.drop s.length = [] := List.drop_eq_nil_of_le (by omega)
    rw [hdu, hdl]
    simp

theorem jsSubstring_sub_eq (s : String) {p u v : Nat} (hpu : p ≤ u) (huv : u ≤ v) :
    jsSubstring s ((u : Int) - (p : Int)) ((v : Int) - (p : Int)) = sliceNat s (u - p) (v - p) := by
  have h1 : ((u : Int) - (p : Int)) = (((u - p : Nat) : Nat) : Int) := by omega
  have h2 : ((v : Int) - (p : Int)) = (((v - p : Nat) : Nat) : Int) := by omega
  rw [h1, h2, jsSubstring_nat]
  omega

theorem sliceNat_full {s : String} {e : Nat} (hlen : s.length = e) :
    sliceNat s 0 e = s := by
  simp only [sliceNat, List.drop_zero, Nat.sub_zero]
  have : s.data.length = e := hlen
  cases s with
  | mk l => simp_all [List.take_of_length_le]

theorem WF_start_le_stop {n : Node} (hwf : WF n = true) : n.start ≤ n.stop := by
  cases n with
  | mk ty text s e cs =>
    simp only [WF, Bool.and_eq_true, decide_eq_true_eq] at hwf
    exact hwf.1.1

theorem WF_text_length {n : Node} (hwf : WF n = true) : n.text.length = n.stop - n.start := by
  cases n with
  | mk ty text s e cs =>
    simp only [WF, Bool.and_eq_true, decide_eq_true_eq] at hwf
    exact hwf.1.2

theorem WF_children {n : Node} (hwf : WF n = true) :
    WFChildren n.text n.start n.stop n.start n.children = true := by
  cases n with
  | mk ty text s e cs =>
    simp only [WF, Bool.and_eq_true, decide_eq_true_eq] at hwf
    exact hwf.2

theorem sliceNat_nil (s : String) (a : Nat) : sliceNat s a a = "" := by
  simp [sliceNat]

theorem chainOK_le : ∀ {z : List ((Nat × Nat) × String)} {pos stop : Nat},
    chainOK pos z stop → pos ≤ stop
  | [], _, _, h => h
  | ((s1, e1), r) :: rest, pos, stop, h => by
    obtain ⟨h1, h2, h3⟩ := h
    exact le_trans h1 (le_trans h2 (chainOK_le h3))

theorem chainOK_weaken : ∀ {z : List ((Nat × Nat) × String)} {pos pos2 stop : Nat},
    pos2 ≤ pos → chainOK pos z stop → chainOK pos2 z stop
  | [], _, _, _, hp, h => le_trans hp h
  | ((s1, e1), r) :: rest, pos, pos2, stop, hp, h =>
    ⟨le_trans hp h.1, h.2.1, h.2.2⟩

theorem chainOK_append : ∀ {z1 z2 : List ((Nat × Nat) × String)} {a m b : Nat},
    chainOK a z1 m → chainOK m z2 b → chainOK a (z1 ++ z2) b
  | [], z2, a, m, b, h1, h2 => by
    simpa using chainOK_weaken h1 h2
  | ((s1, e1), r) :: rest, z2, a, m, b, h1, h2 =>
    ⟨h1.1, h1.2.1, chainOK_append h1.2.2 h2⟩

theorem spliceReps_concat (src : String) (base : Nat) :
    ∀ (z1 z2 : List ((Nat × Nat) × String)) (pos mid stop : Nat),
      chainOK pos z1 mid → chainOK mid z2 stop →
      spliceReps src base pos z1 mid ++ spliceReps src base mid z2 stop =
        spliceReps src base pos (z1 ++ z2) stop
  | [], z2, pos, mid, stop, h1, h2 => by
    simp only [chainOK] at h1
    cases z2 with
    | nil =>
      simp only [chainOK] at h2
      simp only [spliceReps, List.nil_append]
      exact sliceNat_append src (by omega) (by omega)
    | cons seg rest =>
      obtain ⟨⟨s1, e1⟩, r⟩ := seg
      simp only [chainOK] at h2
      obtain ⟨hms, hse, hch⟩ := h2
      simp only [spliceReps, List.nil_append]
      rw [← String.append_assoc, ← String.append_assoc,
        sliceNat_append src (show pos - base ≤ mid - base by omega) (by omega)]
  | seg :: rest1, z2, pos, mid, stop, h1, h2 => by
    obtain ⟨⟨s1, e1⟩, r⟩ := seg
    simp only [chainOK] at h1
    obtain ⟨hps, hse, hch⟩ := h1
    simp only [spliceReps, List.cons_append, String.append_assoc]
    rw [spliceReps_concat src base rest1 z2 e1 mid stop hch h2]
    rfl

theorem spliceReps_rebase {ptext ctext : String} {ps cs ce : Nat}
    (hct : ctext = sliceNat ptext (cs - ps) (ce - ps)) (h1 : ps ≤ cs) :
    ∀ (z : List ((Nat × Nat) × String)) (pos stop : Nat),
      cs ≤ pos → chainOK pos z stop → stop ≤ ce →
      spliceReps ctext cs pos z stop = spliceReps ptext ps pos z stop
  | [], pos, stop, hcp, hch, hsc => by
    simp only [spliceReps]
    exact sliceNat_rebase hct h1 hcp hsc
  | ((s1, e1), r) :: rest, pos, stop, hcp, hch, hsc => by
    obtain ⟨hps, hse, hch2⟩ := hch
    have he1 : e1 ≤ stop := chainOK_le hch2
    simp only [spliceReps]
    rw [sliceNat_rebase hct h1 hcp (by omega),
      spliceReps_rebase hct h1 rest e1 stop (by omega) hch2 hsc]

mutual

theorem rebuild_noTemplate (vars : Bindings) :
    ∀ n : Node, WF n = true → noTemplate n = true →
      rebuildFromAST vars n = .ok n.text
  | .mk ty text s e cs, hwf, hnt => by
    simp only [noTemplate, Bool.and_eq_true, decide_eq_true_eq] at hnt
    obtain ⟨hty, hntl⟩ := hnt
    simp only [WF, Bool.and_eq_true, decide_eq_true_eq] at hwf
    obtain ⟨⟨hse, hlen⟩, hwfc⟩ := hwf
    simp only [rebuildFromAST, if_neg hty]
    cases cs with
    | nil => simp [Node.text]
    | cons c cs2 =>
      obtain ⟨le2, hrun, hle1, hle2⟩ :=
        rebuildChildren_noTemplate vars text s e (c :: cs2) s "" hwfc hntl (le_refl s) hse
      rw [hrun]
      simp only [List.isEmpty_cons, Bool.false_eq_true, if_false, Node.text]
      rw [String.empty_append, Nat.sub_self]
      by_cases hcase : le2 < e
      · rw [if_pos hcase,
          jsSubstring_sub_eq text (le_trans (le_refl s) hle1) (le_of_lt hcase),
          sliceNat_append text (Nat.zero_le _) (by omega), sliceNat_full (by omega)]
      · rw [if_neg hcase]
        have hle2e : le2 = e := by omega
        rw [hle2e, sliceNat_full (by omega)]

theorem rebuildChildren_noTemplate (vars : Bindings) (ptext : String) (pstart pstop : Nat) :
    ∀ (cs : List Node) (lastEnd : Nat) (acc : String),
      WFChildren ptext pstart pstop lastEnd cs = true →
      noTemplateList cs = true → pstart ≤ lastEnd → lastEnd ≤ pstop →
      ∃ le2, rebuildChildren vars ptext pstart cs lastEnd acc =
          .ok (acc ++ sliceNat ptext (lastEnd - pstart) (le2 - pstart), le2) ∧
        lastEnd ≤ le2 ∧ le2 ≤ pstop
  | [], lastEnd, acc, hwfc, hntl, hple, hlep => by
    refine ⟨lastEnd, ?_, le_refl _, hlep⟩
    simp [rebuildChildren, sliceNat_nil]
  | c :: cs, lastEnd, acc, hwfc, hntl, hple, hlep => by
    simp only [WFChildren, Bool.and_eq_true, decide_eq_true_eq] at hwfc
    obtain ⟨⟨⟨⟨hlc, hcp⟩, hctext⟩, hwfcc⟩, hwfrest⟩ := hwfc
    simp only [noTemplateList, Bool.and_eq_true] at hntl
    obtain ⟨hnt1, hnt2⟩ := hntl
    have hcse : c.start ≤ c.stop := WF_start_le_stop hwfcc
    simp only [rebuildChildren]
    have hacc2 : (if lastEnd < c.start then
        acc ++ jsSubstring ptext ((lastEnd : Int) - (pstart : Int)) ((c.start : Int) - (pstart : Int))
      else acc) = acc ++ sliceNat ptext (lastEnd - pstart) (c.start - pstart) := by
      by_cases hgt : lastEnd < c.start
      · rw [if_pos hgt, jsSubstring_sub_eq ptext hple hlc]
      · have hceq : c.start = lastEnd := by omega
        rw [if_neg hgt, hceq, sliceNat_nil, String.append_empty]
    simp only [hacc2, rebuild_noTemplate vars c hwfcc hnt1]
    obtain ⟨le2, hrun, hle1, hle2⟩ :=
      rebuildChildren_noTemplate vars ptext pstart pstop cs c.stop
        ((acc ++ sliceNat ptext (lastEnd - pstart) (c.start - pstart)) ++ c.text)
        hwfrest hnt2 (le_trans hple (le_trans hlc hcse)) hcp
    refine ⟨le2, ?_, le_trans hlc (le_trans hcse hle1), hle2⟩
    rw [hrun]
    have hstr : (((acc ++ sliceNat ptext (lastEnd - pstart) (c.start - pstart)) ++ c.text) ++
        sliceNat ptext (c.stop - pstart) (le2 - pstart)) =
        acc ++ sliceNat ptext (lastEnd - pstart) (le2 - pstart) := by
      rw [hctext, String.append_assoc, String.append_assoc,
        ← String.append_assoc (sliceNat ptext (lastEnd - pstart) (c.start - pstart)),
        sliceNat_append ptext (by omega) (by omega),
        sliceNat_append ptext (by omega) (by omega)]
    rw [hstr]

end

theorem nodeSpans_append (l1 l2 : List Node) :
    nodeSpans (l1 ++ l2) = nodeSpans l1 ++ nodeSpans l2 := by
  simp [nodeSpans]

theorem chainOK_extend : ∀ {z : List ((Nat × Nat) × String)} {pos stop stop2 : Nat},
    chainOK pos z stop → stop ≤ stop2 → chainOK pos z stop2
  | [], _, _, _, h, h2 => le_trans h h2
  | ((s1, e1), r) :: rest, pos, stop, stop2, h, h2 =>
    ⟨h.1, h.2.1, chainOK_extend h.2.2 h2⟩

theorem mapExcept_ok_length {f : α → Except ε β} :
    ∀ {l : List α} {b : List β}, mapExcept f l = .ok b → b.length = l.length
  | [], b, h => by
    simp only [mapExcept] at h
    cases h
    rfl
  | a :: as, b, h => by
    simp only [mapExcept] at h
    cases hfa : f a with
    | error e => rw [hfa] at h; cases h
    | ok v =>
      rw [hfa] at h
      cases hrest : mapExcept f as with
      | error e => rw [hrest] at h; cases h
      | ok vs =>
        rw [hrest] at h
        cases h
        simp [mapExcept_ok_length hrest]

theorem mapExcept_append_ok {f : α → Except ε β} :
    ∀ {l1 l2 : List α} {b1 b2 : List β},
      mapExcept f l1 = .ok b1 → mapExcept f l2 = .ok b2 →
      mapExcept f (l1 ++ l2) = .ok (b1 ++ b2)
  | [], l2, b1, b2, h1, h2 => by
    simp only [mapExcept] at h1
    cases h1
    simpa using h2
  | a :: as, l2, b1, b2, h1, h2 => by
    simp only [mapExcept] at h1 ⊢
    cases hfa : f a with
    | error e => rw [hfa] at h1; cases h1
    | ok v =>
      rw [hfa] at h1
      cases hrest : mapExcept f as with
      | error e => rw [hrest] at h1; cases h1
      | ok vs =>
        rw [hrest] at h1
        cases h1
        simp only [List.cons_append, List.append_eq, mapExcept, hfa, mapExcept_append_ok hrest h2]

mutual

theorem rebuild_splice (vars : Bindings) :
    ∀ n : Node, WF n = true → ∀ out, rebuildFromAST vars n = .ok out →
      ∃ reps, mapExcept (fun p => computeTemplateReplacement p vars) (outermostTemplates n) = .ok reps ∧
        chainOK n.start ((nodeSpans (outermostTemplates n)).zip reps) n.stop ∧
        out = spliceReps n.text n.start n.start ((nodeSpans (outermostTemplates n)).zip reps) n.stop
  | .mk ty text s e cs, hwf, out, hok => by
    simp only [WF, Bool.and_eq_true, decide_eq_true_eq] at hwf
    obtain ⟨⟨hse, hlen⟩, hwfc⟩ := hwf
    simp only [rebuildFromAST] at hok
    by_cases hty : ty = "template_value"
    · rw [if_pos hty] at hok
      refine ⟨[out], ?_, ?_, ?_⟩
      · simp only [outermostTemplates, if_pos hty, mapExcept, hok]
      · simp only [outermostTemplates, if_pos hty, nodeSpans, List.map_cons, List.map_nil,
          List.zip_cons_cons, List.zip_nil_right, Node.start, Node.stop, chainOK]
        exact ⟨le_refl s, hse, le_refl e⟩
      · simp only [outermostTemplates, if_pos hty, nodeSpans, List.map_cons, List.map_nil,
          List.zip_cons_cons, List.zip_nil_right, Node.start, Node.stop, Node.text,
          spliceReps, Nat.sub_self, sliceNat_nil, String.empty_append, String.append_empty]
    · rw [if_neg hty] at hok
      cases cs with
      | nil =>
        simp only [List.isEmpty_nil, if_true] at hok
        cases hok
        refine ⟨[], ?_, ?_, ?_⟩
        · simp only [outermostTemplates, if_neg hty, outermostTemplatesList, mapExcept]
        · simp only [outermostTemplates, if_neg hty, outermostTemplatesList, nodeSpans,
            List.map_nil, List.zip_nil_left, chainOK, Node.start, Node.stop]
          exact hse
        · simp only [outermostTemplates, if_neg hty, outermostTemplatesList, nodeSpans,
            List.map_nil, List.zip_nil_left, spliceReps, Node.start, Node.stop, Node.text,
            Nat.sub_self]
          rw [sliceNat_full (by omega)]
      | cons c cs2 =>
        simp only [List.isEmpty_cons, Bool.false_eq_true, if_false] at hok
        cases hchild : rebuildChildren vars text s (c :: cs2) s "" with
        | error err => rw [hchild] at hok; cases hok
        | ok pr =>
          obtain ⟨result, le2⟩ := pr
          rw [hchild] at hok
          replace hok : (if le2 < e then
              Except.ok (result ++ jsSubstring text ((le2 : Int) - (s : Int)) ((e : Int) - (s : Int)))
            else Except.ok (ε := PrepError) result) = Except.ok out := hok
          obtain ⟨reps, hmap, hchain, hres, hle1, hle2⟩ :=
            rebuildChildren_splice vars text s e (c :: cs2) s "" hwfc (le_refl s) hse result le2 hchild
          rw [String.empty_append] at hres
          refine ⟨reps, ?_, ?_, ?_⟩
          · simpa only [outermostTemplates, if_neg hty] using hmap
          · simp only [outermostTemplates, if_neg hty, Node.start, Node.stop]
            exact chainOK_extend hchain hle2
          · simp only [outermostTemplates, if_neg hty, Node.start, Node.stop, Node.text]
            by_cases hcase : le2 < e
            · rw [if_pos hcase] at hok
              cases hok
              rw [hres, jsSubstring_sub_eq text hle1 (le_of_lt hcase)]
              have hz := spliceReps_concat text s
                ((nodeSpans (outermostTemplatesList (c :: cs2))).zip reps) [] s le2 e
                hchain (by simp only [chainOK]; omega)
              simp only [spliceReps, List.append_nil] at hz
              exact hz
            · rw [if_neg hcase] at hok
              cases hok
              have hle2e : le2 = e := by omega
              rw [hres, hle2e]
  termination_by n => sizeOf n

theorem rebuildChildren_splice (vars : Bindings) (ptext : String) (pstart pstop : Nat) :
    ∀ (cs : List Node) (lastEnd : Nat) (acc : String),
      WFChildren ptext pstart pstop lastEnd cs = true →
      pstart ≤ lastEnd → lastEnd ≤ pstop →
      ∀ res le2, rebuildChildren vars ptext pstart cs lastEnd acc = .ok (res, le2) →
      ∃ reps, mapExcept (fun p => computeTemplateReplacement p vars) (outermostTemplatesList cs) = .ok reps ∧
        chainOK lastEnd ((nodeSpans (outermostTemplatesList cs)).zip reps) le2 ∧
        res = acc ++ spliceReps ptext pstart lastEnd ((nodeSpans (outermostTemplatesList cs)).zip reps) le2 ∧
        lastEnd ≤ le2 ∧ le2 ≤ pstop
  | [], lastEnd, acc, hwfc, hple, hlep, res, le2, hok => by
    simp only [rebuildChildren] at hok
    cases hok
    refine ⟨[], by simp only [outermostTemplatesList, mapExcept], ?_, ?_, le_refl _, hlep⟩
    · simp only [outermostTemplatesList, nodeSpans, List.map_nil, List.zip_nil_left, chainOK]
      omega
    · simp only [outermostTemplatesList, nodeSpans, List.map_nil, List.zip_nil_left, spliceReps,
        Nat.sub_self, sliceNat_nil, String.append_empty]
  | c :: cs, lastEnd, acc, hwfc, hple, hlep, res, le2, hok => by
    simp only [WFChildren, Bool.and_eq_true, decide_eq_true_eq] at hwfc
    obtain ⟨⟨⟨⟨hlc, hcp⟩, hctext⟩, hwfcc⟩, hwfrest⟩ := hwfc
    have hcse : c.start ≤ c.stop := WF_start_le_stop hwfcc
    have hacc2 : (if lastEnd < c.start then
        acc ++ jsSubstring ptext ((lastEnd : Int) - (pstart : Int)) ((c.start : Int) - (pstart : Int))
      else acc) = acc ++ sliceNat ptext (lastEnd - pstart) (c.start - pstart) := by
      by_cases hgt : lastEnd < c.start
      · rw [if_pos hgt, jsSubstring_sub_eq ptext hple hlc]
      · have hceq : c.start = lastEnd := by omega
        rw [if_neg hgt, hceq, sliceNat_nil, String.append_empty]
    simp only [rebuildChildren, hacc2] at hok
    cases hc : rebuildFromAST vars c with
    | error err => rw [hc] at hok; cases hok
    | ok childText =>
      rw [hc] at hok
      obtain ⟨reps1, hmap1, hchain1, hout1⟩ := rebuild_splice vars c hwfcc childText hc
      rw [spliceReps_rebase hctext (le_trans hple hlc) _ c.start c.stop (le_refl _) hchain1 (le_refl _)] at hout1
      obtain ⟨reps2, hmap2, hchain2, hres2, hb1, hb2⟩ :=
        rebuildChildren_splice vars ptext pstart pstop cs c.stop
          ((acc ++ sliceNat ptext (lastEnd - pstart) (c.start - pstart)) ++ childText)
          hwfrest (le_trans hple (le_trans hlc hcse)) hcp res le2 hok
      have hlen1 : (nodeSpans (outermostTemplates c)).length = reps1.length := by
        rw [nodeSpans, List.length_map, mapExcept_ok_length hmap1]
      refine ⟨reps1 ++ reps2, ?_, ?_, ?_, ?_, hb2⟩
      · simp only [outermostTemplatesList]
        exact mapExcept_append_ok hmap1 hmap2
      · simp only [outermostTemplatesList, nodeSpans_append, List.zip_append hlen1]
        exact chainOK_append (chainOK_weaken hlc hchain1) hchain2
      · simp only [outermostTemplatesList, nodeSpans_append, List.zip_append hlen1]
        rw [hres2, hout1]
        have hz1 := spliceReps_concat ptext pstart []
          ((nodeSpans (outermostTemplates c)).zip reps1)
          lastEnd c.start c.stop (by simp only [chainOK]; omega) hchain1
        simp only [spliceReps, List.nil_append] at hz1
        have hz2 := spliceReps_concat ptext pstart
          ((nodeSpans (outermostTemplates c)).zip reps1)
          ((nodeSpans (outermostTemplatesList cs)).zip reps2)
          lastEnd c.stop le2 (chainOK_weaken hlc hchain1) hchain2
        rw [String.append_assoc, String.append_assoc, ← hz2, ← hz1]
        simp only [String.append_assoc]
      · exact le_trans hlc (le_trans hcse hb1)
  termination_by cs => sizeOf cs

end

mutual

theorem extractTraverse_eq_foldl :
    ∀ (n : Node) (acc : List ExtractedVariable),
      extractTraverse acc n = List.foldl insertOcc acc (templateOccurrences n)
  | .mk ty text s e cs, acc => by
    simp only [extractTraverse, templateOccurrences]
    by_cases hty : ty = "template_value"
    · rw [if_pos hty, if_pos hty]
      cases hvi : extractVariableFromNode (.mk ty text s e cs) with
      | none =>
        simp only [List.nil_append]
        exact extractTraverseList_eq_foldl cs acc
      | some vi =>
        simp only [List.cons_append, List.nil_append, List.foldl_cons]
        exact extractTraverseList_eq_foldl cs (insertOcc acc vi)
    · rw [if_neg hty, if_neg hty]
      simp only [List.nil_append]
      exact extractTraverseList_eq_foldl cs acc

theorem extractTraverseList_eq_foldl :
    ∀ (cs : List Node) (acc : List ExtractedVariable),
      extractTraverseList acc cs = List.foldl insertOcc acc (templateOccurrencesList cs)
  | [], acc => by
    simp [extractTraverseList, templateOccurrencesList]
  | c :: cs, acc => by
    simp only [extractTraverseList, templateOccurrencesList, List.foldl_append]
    rw [extractTraverse_eq_foldl c acc]
    exact extractTraverseList_eq_foldl cs (List.foldl insertOcc acc (templateOccurrences c))

end


theorem addPositions_nil (ev : ExtractedVariable) : addPositions ev [] = ev := by
  cases ev
  simp [addPositions]


theorem insertOcc_eq (acc : List ExtractedVariable) (o : VarInfo) :
    insertOcc acc o =
      if acc.any (fun ev => ev.name = o.name) then acc.map (pushSpan o)
      else acc ++ [{ name := o.name, filters := o.filters, positions := [(o.start, o.stop)] }] :=
  rfl

theorem pushSpan_name (o : VarInfo) (ev : ExtractedVariable) :
    (pushSpan o ev).name = ev.name := by
  unfold pushSpan
  split <;> rfl

theorem any_map_pushSpan (acc : List ExtractedVariable) (o : VarInfo) (p : String) :
    ((acc.map (pushSpan o)).any (fun ev => ev.name = p)) = acc.any (fun ev => ev.name = p) := by
  induction acc with
  | nil => rfl
  | cons a l ih =>
    simp only [List.map_cons, List.any_cons, ih, pushSpan_name]

theorem insertOcc_any (acc : List ExtractedVariable) (o : VarInfo) (p : String) :
    ((insertOcc acc o).any (fun ev => ev.name = p)) =
      (acc.any (fun ev => ev.name = p) || o.name = p) := by
  rw [insertOcc_eq]
  by_cases hmem : acc.any (fun ev => ev.name = o.name)
  · rw [if_pos hmem, any_map_pushSpan]
    by_cases hop : o.name = p
    · have : acc.any (fun ev => ev.name = p) = true := by
        rw [List.any_eq_true] at hmem ⊢
        obtain ⟨ev, hev, hname⟩ := hmem
        refine ⟨ev, hev, ?_⟩
        simp only [decide_eq_true_eq] at hname ⊢
        rw [hname, hop]
      simp [this]
    · simp [hop]
  · rw [if_neg hmem, List.any_append]
    simp [List.any_cons]

theorem insertOcc_foldl_spec :
    ∀ (occs : List VarInfo) (acc : List ExtractedVariable),
      List.foldl insertOcc acc occs =
        acc.map (fun ev => addPositions ev (spansOf (occs.filter (fun o => o.name = ev.name)))) ++
        extractVariablesSpec (occs.filter (fun o => !(acc.any (fun ev => ev.name = o.name))))
  | [], acc => by
    simp [extractVariablesSpec, spansOf, addPositions_nil]
  | o :: os, acc => by
    simp only [List.foldl_cons]
    rw [insertOcc_foldl_spec os (insertOcc acc o), insertOcc_eq]
    by_cases hmem : acc.any (fun ev => ev.name = o.name)
    · rw [if_pos hmem]
      congr 1
      · rw [List.map_map]
        apply List.map_congr_left
        intro ev _
        simp only [Function.comp_apply]
        by_cases hn : ev.name = o.name
        · have hdec : (decide (o.name = ev.name)) = true := by simp [hn]
          simp only [pushSpan, if_pos hn, addPositions, List.filter_cons, hdec, if_true,
            spansOf, List.map_cons]
          simp [List.append_assoc]
        · have hdec : (decide (o.name = ev.name)) = false := by
            simp only [decide_eq_false_iff_not]
            intro h
            exact hn h.symm
          simp only [pushSpan, if_neg hn, addPositions, List.filter_cons, hdec,
            Bool.false_eq_true, if_false]
      · congr 1
        have hfo : (!(List.map (pushSpan o) acc).any (fun ev => ev.name = o.name)) = false := by
          rw [any_map_pushSpan, hmem]
          rfl
        simp only [List.filter_cons, any_map_pushSpan, hmem, Bool.not_true, Bool.false_eq_true,
          if_false]
    · rw [if_neg hmem]
      have hfalse : acc.any (fun ev => ev.name = o.name) = false := by
        simpa using hmem
      have haccnames : ∀ ev ∈ acc, ev.name ≠ o.name := by
        intro ev hev heq
        rw [List.any_eq_false] at hfalse
        exact hfalse ev hev (by simp [heq])
      rw [List.map_append, List.map_cons, List.map_nil, List.append_assoc]
      congr 1
      · apply List.map_congr_left
        intro ev hev
        have hne : ¬(decide (o.name = ev.name) = true) := by
          simp only [decide_eq_true_eq]
          intro h
          exact haccnames ev hev h.symm
        simp only [List.filter_cons]
        rw [if_neg hne]
      · have hsub : (os.filter (fun p => !(acc.any fun ev => ev.name = p.name))).filter
            (fun p => p.name = o.name) = os.filter (fun p => p.name = o.name) := by
          rw [List.filter_filter]
          apply List.filter_congr
          intro p _
          by_cases hpn : p.name = o.name
          · simp only [hpn, hfalse]
            rfl
          · simp [hpn]
        have hofilter : (List.filter (fun p => !(acc.any fun ev => ev.name = p.name)) (o :: os)) =
            o :: os.filter (fun p => !(acc.any fun ev => ev.name = p.name)) := by
          simp [List.filter_cons, hfalse]
        rw [hofilter]
        simp only [extractVariablesSpec]
        rw [List.singleton_append]
        congr 1
        · simp only [addPositions, spansOf, hsub, List.map_cons]
          rfl
        · congr 1
          rw [List.filter_filter]
          apply List.filter_congr
          intro p _
          simp only [List.any_append, List.any_cons, List.any_nil, Bool.or_false, Bool.not_or]
          by_cases hpn : p.name = o.name
          · simp [hpn]
          · have hop : ¬(o.name = p.name) := fun h => hpn h.symm
            simp [hpn, hop, Bool.and_comm]

theorem extractVariables_eq_spec (t : RuleTemplate) :
    t.extractVariables = extractVariablesSpec (templateOccurrences t.ast) := by
  rw [RuleTemplate.extractVariables, extractTraverse_eq_foldl, insertOcc_foldl_spec]
  simp

theorem validate_foldl_aux (vars : Bindings) :
    ∀ (l : List ExtractedVariable) (acc : List ValidationError),
      List.foldl (fun errs varInfo =>
        match validateOne vars varInfo with
        | some err => errs ++ [err]
        | none => errs) acc l = acc ++ l.filterMap (validateOne vars)
  | [], acc => by simp
  | a :: l, acc => by
    simp only [List.foldl_cons, List.filterMap_cons]
    cases hfa : validateOne vars a with
    | none =>
      simp only [hfa]
      rw [validate_foldl_aux vars l acc]
    | some err =>
      simp only [hfa]
      rw [validate_foldl_aux vars l (acc ++ [err])]
      simp

theorem validate_errors_eq (t : RuleTemplate) (vars : Bindings) :
    (t.validate vars).errors = (t.extractVariables).filterMap (validateOne vars) :=
  (validate_foldl_aux vars t.extractVariables []).trans (List.nil_append _)

theorem validate_valid_iff (t : RuleTemplate) (vars : Bindings) :
    (t.validate vars).valid = true ↔ (t.validate vars).errors = [] := by
  rw [RuleTemplate.validate]
  simp only [decide_eq_true_eq, List.length_eq_zero]

mutual

theorem occ_slice : ∀ (n : Node), WF n = true →
    ∀ vi ∈ templateOccurrences n,
      n.start ≤ vi.start ∧ vi.stop ≤ n.stop ∧
      ∃ m : Node, extractVariableFromNode m = some vi ∧ vi.start = m.start ∧ vi.stop = m.stop ∧
        sliceNat n.text (vi.start - n.start) (vi.stop - n.start) = m.text
  | .mk ty text s e cs, hwf, vi, hvi => by
    simp only [WF, Bool.and_eq_true, decide_eq_true_eq] at hwf
    obtain ⟨⟨hse, hlen⟩, hwfc⟩ := hwf
    simp only [templateOccurrences] at hvi
    rw [List.mem_append] at hvi
    rcases hvi with hvi | hvi
    · -- the occurrence contributed by this node itself
      by_cases hty : ty = "template_value"
      · rw [if_pos hty] at hvi
        cases hext : extractVariableFromNode (.mk ty text s e cs) with
        | none => rw [hext] at hvi; cases hvi
        | some vi2 =>
          rw [hext] at hvi
          simp only [List.mem_singleton] at hvi
          subst hvi
          have hstart : vi.start = s := by
            simp only [extractVariableFromNode] at hext
            split at hext
            · cases hext
            · split at hext
              · cases hext
              · split at hext
                · cases hext
                · split at hext
                  · cases hext
                  · cases hext
                    rfl
          have hstop : vi.stop = e := by
            simp only [extractVariableFromNode] at hext
            split at hext
            · cases hext
            · split at hext
              · cases hext
              · split at hext
                · cases hext
                · split at hext
                  · cases hext
                  · cases hext
                    rfl
          refine ⟨by simp [Node.start, hstart], by simp [Node.stop, hstop], ⟨.mk ty text s e cs, hext, ?_, ?_, ?_⟩⟩
          · simp [Node.start, hstart]
          · simp [Node.stop, hstop]
          · simp only [Node.text, Node.start, hstart, hstop, Nat.sub_self]
            exact sliceNat_full (by omega)
      · rw [if_neg hty] at hvi
        cases hvi
    · -- an occurrence below some child
      obtain ⟨h1, h2, m, hm⟩ := occList_slice cs text s e s hwfc (le_refl s) vi hvi
      exact ⟨h1, h2, m, hm⟩

theorem occList_slice : ∀ (cs : List Node) (ptext : String) (pstart pstop lastEnd : Nat),
    WFChildren ptext pstart pstop lastEnd cs = true → pstart ≤ lastEnd →
    ∀ vi ∈ templateOccurrencesList cs,
      lastEnd ≤ vi.start ∧ vi.stop ≤ pstop ∧
      ∃ m : Node, extractVariableFromNode m = some vi ∧ vi.start = m.start ∧ vi.stop = m.stop ∧
        sliceNat ptext (vi.start - pstart) (vi.stop - pstart) = m.text
  | [], ptext, pstart, pstop, lastEnd, hwfc, hple, vi, hvi => by
    cases hvi
  | c :: cs, ptext, pstart, pstop, lastEnd, hwfc, hple, vi, hvi => by
    simp only [WFChildren, Bool.and_eq_true, decide_eq_true_eq] at hwfc
    obtain ⟨⟨⟨⟨hlc, hcp⟩, hctext⟩, hwfcc⟩, hwfrest⟩ := hwfc
    have hcse : c.start ≤ c.stop := WF_start_le_stop hwfcc
    simp only [templateOccurrencesList] at hvi
    rw [List.mem_append] at hvi
    rcases hvi with hvi | hvi
    · obtain ⟨h1, h2, m, hm1, hm2, hm3, hm4⟩ := occ_slice c hwfcc vi hvi
      refine ⟨le_trans hlc h1, le_trans h2 hcp, m, hm1, hm2, hm3, ?_⟩
      rw [← hm4]
      exact (sliceNat_rebase hctext (le_trans hple hlc) h1 h2).symm
    · obtain ⟨h1, h2, m, hm⟩ :=
        occList_slice cs ptext pstart pstop c.stop hwfrest (le_trans hple (le_trans hlc hcse)) vi hvi
      exact ⟨le_trans (le_trans hlc hcse) h1, h2, m, hm⟩

end

theorem spec_positions (occs : List VarInfo) :
    ∀ v ∈ extractVariablesSpec occs, ∀ pos ∈ v.positions,
      ∃ vi ∈ occs, vi.name = v.name ∧ pos = (vi.start, vi.stop) := by
  induction occs using extractVariablesSpec.induct with
  | case1 =>
    intro v hv
    simp [extractVariablesSpec] at hv
  | case2 o rest ih =>
    intro v hv pos hpos
    simp only [extractVariablesSpec, List.mem_cons] at hv
    rcases hv with hv | hv
    · subst hv
      simp only [List.mem_map, List.mem_cons] at hpos
      obtain ⟨vi, hvi, hspan⟩ := hpos
      rcases hvi with hvi | hvi
      · subst hvi
        exact ⟨vi, List.mem_cons_self _ _, rfl, hspan.symm⟩
      · refine ⟨vi, List.mem_cons_of_mem _ (List.mem_of_mem_filter hvi), ?_, hspan.symm⟩
        have := List.of_mem_filter hvi
        simpa using this
    · obtain ⟨vi, hvi, hname, hspan⟩ := ih v hv pos hpos
      exact ⟨vi, List.mem_cons_of_mem _ (List.mem_of_mem_filter hvi), hname, hspan⟩

theorem escape_compose (s : String) :
    jsReplaceAllChar (jsReplaceAllChar s '\\' ['\\', '\\']) '"' ['\\', '"'] = escapeSpec s := by
  obtain ⟨l⟩ := s
  simp only [jsReplaceAllChar, escapeSpec]
  congr 1
  show (l.flatMap fun d => if d = '\\' then ['\\', '\\'] else [d]).flatMap
      (fun d => if d = '"' then ['\\', '"'] else [d]) = l.flatMap escapeSpecChar
  induction l with
  | nil => rfl
  | cons c0 l ih =>
    rw [List.flatMap_cons, List.flatMap_cons, List.flatMap_append, ih]
    congr 1
    by_cases h1 : c0 = '\\'
    · subst h1
      rfl
    · by_cases h2 : c0 = '"'
      · subst h2
        simp [escapeSpecChar, List.flatMap_cons]
      · simp [escapeSpecChar, h1, h2, List.flatMap_cons]

theorem applyFilters_pipeline :
    ∀ (fs : List String) (v : JSValue), (∀ f ∈ fs, (templateFiltersLookup f).isSome) →
      applyFilters fs v = .ok (fs.foldl (fun acc f => ((templateFiltersLookup f).getD id) acc) v)
  | [], v, _ => rfl
  | f :: fs, v, h => by
    have hf : (templateFiltersLookup f).isSome := h f (List.mem_cons_self _ _)
    cases hlook : templateFiltersLookup f with
    | none => rw [hlook] at hf; cases hf
    | some g =>
      simp only [applyFilters, hlook, List.foldl_cons, Option.getD_some]
      exact applyFilters_pipeline fs (g v) (fun f2 hf2 => h f2 (List.mem_cons_of_mem _ hf2))

theorem applyFilters_error :
    ∀ {fs : List String} {v : JSValue} {e : PrepError}, applyFilters fs v = .error e →
      ∃ f ∈ fs, templateFiltersLookup f = none ∧ e = .unknownFilter f
  | [], v, e, h => by simp [applyFilters] at h
  | f :: fs, v, e, h => by
    simp only [applyFilters] at h
    cases hlook : templateFiltersLookup f with
    | none =>
      rw [hlook] at h
      cases h
      exact ⟨f, List.mem_cons_self _ _, hlook, rfl⟩
    | some g =>
      rw [hlook] at h
      obtain ⟨f2, hf2, hnone, he⟩ := applyFilters_error h
      exact ⟨f2, List.mem_cons_of_mem _ hf2, hnone, he⟩


theorem compute_error_describes {node : Node} {vars : Bindings} {e : PrepError}
    (h : computeTemplateReplacement node vars = .error e) :
    describesOffense node vars e := by
  rw [computeTemplateReplacement] at h
  split at h
  · -- extraction failed
    rename_i hext
    cases h
    unfold describesOffense
    rw [hext]
  · rename_i info hext
    split at h
    · rename_i hlook
      cases h
      unfold describesOffense
      rw [hext]
      exact Or.inl ⟨hlook, rfl⟩
    · rename_i v hlook
      cases h
      unfold describesOffense
      rw [hext]
      exact Or.inr (Or.inl ⟨⟨v, hlook⟩, rfl⟩)
    · rename_i ty? hlook
      cases h
      unfold describesOffense
      rw [hext]
      exact Or.inr (Or.inr (Or.inl ⟨⟨ty?, hlook⟩, rfl⟩))
    · rename_i v ty? hlook
      split at h
      · -- type key absent
        cases h
        unfold describesOffense
        rw [hext]
        exact Or.inr (Or.inr (Or.inr (Or.inl ⟨⟨v, hlook⟩, rfl⟩)))
      · rename_i ty
        split at h
        · -- invalid declared type
          rename_i hty
          cases h
          unfold describesOffense
          rw [hext]
          exact Or.inr (Or.inr (Or.inr (Or.inr (Or.inl ⟨v, ty, hlook, hty, rfl⟩))))
        · rename_i hty
          split at h
          · -- filter chain present
            split at h
            · rename_i e2 happ
              cases h
              obtain ⟨f, hf, hnone, he⟩ := applyFilters_error happ
              unfold describesOffense
              rw [hext]
              exact Or.inr (Or.inr (Or.inr (Or.inr (Or.inr ⟨f, hf, hnone, he⟩))))
            · rename_i r happ
              cases h
          · cases h

mutual

theorem rebuild_ok_of_templates_ok (vars : Bindings) :
    ∀ n : Node, (∀ p ∈ outermostTemplates n, ∃ s, computeTemplateReplacement p vars = .ok s) →
      ∃ out, rebuildFromAST vars n = .ok out
  | .mk ty text s e cs, h => by
    simp only [rebuildFromAST]
    by_cases hty : ty = "template_value"
    · rw [if_pos hty]
      obtain ⟨out, hout⟩ := h (.mk ty text s e cs) (by simp [outermostTemplates, if_pos hty])
      exact ⟨out, hout⟩
    · rw [if_neg hty]
      cases cs with
      | nil => exact ⟨text, by simp⟩
      | cons c cs2 =>
        have hlist := rebuildChildren_ok_of_templates_ok vars text s (c :: cs2) s ""
          (by
            intro p hp
            exact h p (by simpa [outermostTemplates, if_neg hty] using hp))
        obtain ⟨res, le2, hrun⟩ := hlist
        rw [hrun]
        simp only [List.isEmpty_cons, Bool.false_eq_true, if_false]
        by_cases hcase : le2 < e
        · exact ⟨_, by rw [if_pos hcase]⟩
        · exact ⟨res, by rw [if_neg hcase]⟩

theorem rebuildChildren_ok_of_templates_ok (vars : Bindings) (ptext : String) (pstart : Nat) :
    ∀ (cs : List Node) (lastEnd : Nat) (acc : String),
      (∀ p ∈ outermostTemplatesList cs, ∃ s, computeTemplateReplacement p vars = .ok s) →
      ∃ res le2, rebuildChildren vars ptext pstart cs lastEnd acc = .ok (res, le2)
  | [], lastEnd, acc, _ => ⟨acc, lastEnd, by simp [rebuildChildren]⟩
  | c :: cs, lastEnd, acc, h => by
    obtain ⟨out, hout⟩ := rebuild_ok_of_templates_ok vars c
      (fun p hp => h p (by simp only [outermostTemplatesList, List.mem_append]; exact Or.inl hp))
    obtain ⟨res, le2, hrun⟩ := rebuildChildren_ok_of_templates_ok vars ptext pstart cs c.stop
      (acc ++ (if c.start > lastEnd then
        jsSubstring ptext ((lastEnd : Int) - (pstart : Int)) ((c.start : Int) - (pstart : Int))
      else "") ++ out)
      (fun p hp => h p (by simp only [outermostTemplatesList, List.mem_append]; exact Or.inr hp))
    refine ⟨res, le2, ?_⟩
    simp only [rebuildChildren, hout]
    by_cases hgt : lastEnd < c.start
    · rw [← hrun]
      congr 1
      simp [hgt]
    · rw [← hrun]
      congr 1
      simp [hgt]

end

mutual

theorem rebuild_first_error (vars : Bindings) :
    ∀ (n : Node) (good : List Node) (bad : Node) (rest : List Node) (e : PrepError),
      outermostTemplates n = good ++ bad :: rest →
      (∀ p ∈ good, ∃ s, computeTemplateReplacement p vars = .ok s) →
      computeTemplateReplacement bad vars = .error e →
      rebuildFromAST vars n = .error e
  | .mk ty text s e0 cs, good, bad, rest, e, hsplit, hgood, hbad => by
    simp only [rebuildFromAST]
    by_cases hty : ty = "template_value"
    · rw [if_pos hty]
      simp only [outermostTemplates, if_pos hty] at hsplit
      cases good with
      | nil =>
        simp only [List.nil_append] at hsplit
        cases hsplit
        exact hbad
      | cons g gs =>
        have hlen := congrArg List.length hsplit
        simp at hlen <;> omega
    · rw [if_neg hty]
      simp only [outermostTemplates, if_neg hty] at hsplit
      cases cs with
      | nil =>
        simp only [outermostTemplatesList] at hsplit
        have hlen := congrArg List.length hsplit
        simp at hlen <;> omega
      | cons c cs2 =>
        have hrun := rebuildChildren_first_error vars text s (c :: cs2) s "" good bad rest e
          hsplit hgood hbad
        rw [hrun]
        simp

theorem rebuildChildren_first_error (vars : Bindings) (ptext : String) (pstart : Nat) :
    ∀ (cs : List Node) (lastEnd : Nat) (acc : String)
      (good : List Node) (bad : Node) (rest : List Node) (e : PrepError),
      outermostTemplatesList cs = good ++ bad :: rest →
      (∀ p ∈ good, ∃ s, computeTemplateReplacement p vars = .ok s) →
      computeTemplateReplacement bad vars = .error e →
      rebuildChildren vars ptext pstart cs lastEnd acc = .error e
  | [], lastEnd, acc, good, bad, rest, e, hsplit, hgood, hbad => by
    simp only [outermostTemplatesList] at hsplit
    have hlen := congrArg List.length hsplit
    simp at hlen <;> omega
  | c :: cs, lastEnd, acc, good, bad, rest, e, hsplit, hgood, hbad => by
    simp only [outermostTemplatesList] at hsplit
    rcases List.append_eq_append_iff.mp hsplit with ⟨a2, hg, hrest⟩ | ⟨c2, hg, hrest⟩
    · -- the whole of this child's templates are good: the child rebuilds,
      -- the error comes later
      obtain ⟨out, hout⟩ := rebuild_ok_of_templates_ok vars c
        (fun p hp => hgood p (by rw [hg]; exact List.mem_append_left _ hp))
      simp only [rebuildChildren, hout]
      exact rebuildChildren_first_error vars ptext pstart cs c.stop _ a2 bad rest e hrest
        (fun p hp => hgood p (by rw [hg]; exact List.mem_append_right _ hp)) hbad
    · cases c2 with
      | nil =>
        simp only [List.append_nil] at hg
        simp only [List.nil_append] at hrest
        obtain ⟨out, hout⟩ := rebuild_ok_of_templates_ok vars c
          (fun p hp => hgood p (by rw [hg] at hp; exact hp))
        simp only [rebuildChildren, hout]
        exact rebuildChildren_first_error vars ptext pstart cs c.stop _ [] bad rest e
          (by rw [← hrest]; simp) (by intro p hp; cases hp) hbad
      | cons b2 post =>
        simp only [List.cons_append] at hrest
        cases hrest
        have hc := rebuild_first_error vars c good bad post e hg hgood hbad
        simp only [rebuildChildren, hc]

end

theorem findIdx?_some_aux {α : Type} (p : α → Bool) :
    ∀ (l : List α) (j i : Nat), List.findIdx? p l j = some i →
      j ≤ i ∧ ∃ x, l[i - j]? = some x ∧ p x = true
  | [], j, i, h => by simp [List.findIdx?] at h
  | x :: xs, j, i, h => by
    rw [List.findIdx?_cons] at h
    by_cases hp : p x
    · rw [if_pos hp] at h
      cases h
      exact ⟨le_refl _, x, by simp, hp⟩
    · rw [if_neg hp] at h
      obtain ⟨hji, y, hy, hpy⟩ := findIdx?_some_aux p xs (j + 1) i h
      refine ⟨by omega, y, ?_, hpy⟩
      have : i - j = (i - (j + 1)) + 1 := by omega
      rw [this]
      simpa using hy

theorem mergeGrammarIdx_deref (heap : List GRule) :
    ∀ (tmpl host : List Nat),
      (mergeGrammarIdx heap host tmpl).map (derefRule heap) =
        mergeGrammar (host.map (derefRule heap)) (tmpl.map (derefRule heap))
  | [], host => by simp [mergeGrammarIdx, mergeGrammar]
  | ti :: tmpl, host => by
    simp only [mergeGrammarIdx, mergeGrammar, List.map_cons, List.foldl_cons]
    have hfind : List.findIdx? (fun q => q.name = (derefRule heap ti).name)
        (host.map (derefRule heap)) =
        List.findIdx? (fun ei => (derefRule heap ei).name = (derefRule heap ti).name) host := by
      rw [List.findIdx?_map]
      rfl
    rw [hfind]
    cases hidx : List.findIdx? (fun ei => (derefRule heap ei).name = (derefRule heap ti).name) host with
    | none =>
      have := mergeGrammarIdx_deref heap tmpl (host ++ [ti])
      simp only [mergeGrammarIdx, mergeGrammar, List.map_append, List.map_cons,
        List.map_nil] at this ⊢
      exact this
    | some i =>
      have := mergeGrammarIdx_deref heap tmpl (host.set i ti)
      simp only [mergeGrammarIdx, mergeGrammar, List.map_set] at this ⊢
      exact this

theorem initExtendedGrammar_preserves (heap : List GRule) (host tmpl : List Nat) (k : Nat)
    (hk : (derefRule heap k).name ≠ "value_atom") :
    derefRule (initExtendedGrammar heap host tmpl).1 k = derefRule heap k := by
  simp only [initExtendedGrammar, valueAtomInject]
  cases hidx : List.findIdx? (fun ei => (derefRule heap ei).name = "value_atom")
      (mergeGrammarIdx heap host tmpl) with
  | none => rfl
  | some i =>
    obtain ⟨_, x, hx, hpx⟩ := findIdx?_some_aux _ (mergeGrammarIdx heap host tmpl) 0 i hidx
    simp only [Nat.sub_zero] at hx
    have hxval : (derefRule heap x).name = "value_atom" := by simpa using hpx
    have hpk : (mergeGrammarIdx heap host tmpl).getD i 0 = x := by
      simp [List.getD_eq_getElem?_getD, hx]
    show derefRule (heap.set ((mergeGrammarIdx heap host tmpl).getD i 0)
      (pushTemplateAlt (derefRule heap ((mergeGrammarIdx heap host tmpl).getD i 0)))) k =
      derefRule heap k
    rw [hpk]
    have hkx : k ≠ x := by
      intro heq
      rw [heq] at hk
      exact hk hxval
    simp only [derefRule, List.getD_eq_getElem?_getD]
    rw [List.getElem?_set_ne (fun heq => hkx heq.symm)]

theorem initExtendedGrammar_mutation (heap : List GRule) (host tmpl : List Nat) (i p : Nat)
    (hidx : List.findIdx? (fun ei => (derefRule heap ei).name = "value_atom")
      (mergeGrammarIdx heap host tmpl) = some i)
    (hp : p = (mergeGrammarIdx heap host tmpl).getD i 0)
    (hlen : p < heap.length) :
    derefRule (initExtendedGrammar heap host tmpl).1 p = pushTemplateAlt (derefRule heap p) := by
  simp only [initExtendedGrammar, valueAtomInject, hidx]
  rw [← hp]
  have h1 : (heap.set p (pushTemplateAlt (heap[p]?.getD defaultGRule)))[p]? =
      some (pushTemplateAlt (heap[p]?.getD defaultGRule)) := by
    rw [List.getElem?_set_self', List.getElem?_eq_getElem hlen]
    rfl
  simp [derefRule, List.getD_eq_getElem?_getD, h1]

theorem compute_ok_formatted {node : Node} {vars : Bindings} {info : VarInfo} {v : JSValue}
    {ty : String}
    (hext : extractVariableFromNode node = some info)
    (hbind : bindingsLookup vars info.name = some (.obj (some v) (some ty)))
    (hty : VariableTypes.contains ty = true)
    (hfil : info.filters = []) :
    computeTemplateReplacement node vars = .ok (formatByType ty v) := by
  simp [computeTemplateReplacement, hext, hbind, hty, hfil]
  simpa using hty

theorem compute_ok_filtered {node : Node} {vars : Bindings} {info : VarInfo} {v : JSValue}
    {ty : String}
    (hext : extractVariableFromNode node = some info)
    (hbind : bindingsLookup vars info.name = some (.obj (some v) (some ty)))
    (hty : VariableTypes.contains ty = true)
    (hfil : info.filters ≠ [])
    (hknown : ∀ f ∈ info.filters, (templateFiltersLookup f).isSome) :
    computeTemplateReplacement node vars =
      .ok (jsToString (info.filters.foldl
        (fun acc f => ((templateFiltersLookup f).getD id) acc) v)) := by
  simp only [computeTemplateReplacement, hext, hbind, hty]
  rw [applyFilters_pipeline info.filters v hknown]
  simp [hfil]


/-! ## Claim theorems -/

/-- C1: when `prepare` succeeds on a well-formed AST, the output is exactly
the parsed (trimmed) source text with each outermost placeholder node's span
replaced by that node's own replacement — `computeTemplateReplacement`
applied to the node itself, one node at a time, never a global text replace —
and every character outside those spans spliced verbatim from the literal
gaps of the source text, so parentheses, operators, commas, keywords and
whitespace are reproduced byte for byte. -/
theorem c1_prepare_tree_substitution (t : RuleTemplate) (vars : Bindings) (out : String)
    (hwf : WF t.ast = true) (hok : t.prepare vars = .ok out) :
    ∃ reps,
      mapExcept (fun p => computeTemplateReplacement p vars) (outermostTemplates t.ast) =
        .ok reps ∧
      out = spliceReps t.ast.text t.ast.start t.ast.start
        ((nodeSpans (outermostTemplates t.ast)).zip reps) t.ast.stop := by
  obtain ⟨reps, hmap, _, hout⟩ := rebuild_splice vars t.ast hwf out hok
  exact ⟨reps, hmap, hout⟩

/-- C1 witness: the two-placeholder template of the test-suite, rebuilt with
`VALUE` bound to the number 15. -/
theorem c1_witness :
    WF astVal = true ∧
    (RuleTemplate.mk "$\x7bVALUE\x7d > 10 && $\x7bVALUE\x7d < 20" astVal).prepare bindingsVal =
      .ok "15 > 10 && 15 < 20" ∧
    (∃ reps,
      mapExcept (fun p => computeTemplateReplacement p bindingsVal) (outermostTemplates astVal) =
        .ok reps ∧
      "15 > 10 && 15 < 20" = spliceReps astVal.text astVal.start astVal.start
        ((nodeSpans (outermostTemplates astVal)).zip reps) astVal.stop) :=
  ⟨by decide, by rfl,
   c1_prepare_tree_substitution
     (RuleTemplate.mk "$\x7bVALUE\x7d > 10 && $\x7bVALUE\x7d < 20" astVal)
     bindingsVal "15 > 10 && 15 < 20" (by decide) (by rfl)⟩

/-- C2: `extractVariables` returns exactly the spec-side grouping of the
pre-order placeholder occurrences — one entry per distinct name in
first-seen order, the first occurrence's filter chain, and one
`(start, end)` pair per occurrence in traversal order; in particular the
two-occurrence template of the spec yields one variable `VALUE` with two
ordered positions. -/
theorem c2_extract_grouping :
    (∀ t : RuleTemplate,
      t.extractVariables = extractVariablesSpec (templateOccurrences t.ast)) ∧
    (RuleTemplate.mk "$\x7bVALUE\x7d > 10 && $\x7bVALUE\x7d < 20" astVal).extractVariables =
      [{ name := "VALUE", filters := [], positions := [(0, 8), (17, 25)] }] :=
  ⟨extractVariables_eq_spec, by rfl⟩

/-- C3: `prepare` raises the error of the first offending placeholder the
depth-first rebuild reaches — even when every earlier placeholder is
resolvable — returning no output at all, and the raised error is exactly one
of the binding-contract or unknown-filter offenses, carrying the offending
variable or filter name. -/
theorem c3_prepare_fail_fast (t : RuleTemplate) (vars : Bindings)
    (good : List Node) (bad : Node) (rest : List Node) (e : PrepError)
    (hsplit : outermostTemplates t.ast = good ++ bad :: rest)
    (hgood : ∀ p ∈ good, ∃ s, computeTemplateReplacement p vars = .ok s)
    (hbad : computeTemplateReplacement bad vars = .error e) :
    t.prepare vars = .error e ∧ describesOffense bad vars e :=
  ⟨rebuild_first_error vars t.ast good bad rest e hsplit hgood hbad,
   compute_error_describes hbad⟩

/-- C3 witness: a two-placeholder template where `A` is resolvable (so its
replacement succeeds) but `B` is unbound: `prepare` yields only the error
naming `B`. -/
theorem c3_witness :
    outermostTemplates astAB = [tvNode "A" 0] ++ tvNode "B" 12 :: [] ∧
    computeTemplateReplacement (tvNode "A" 0) bindingsAB = .ok "5" ∧
    ((RuleTemplate.mk "$\x7bA\x7d > 1 && $\x7bB\x7d < 2" astAB).prepare bindingsAB =
        .error (.notProvided "B") ∧
      describesOffense (tvNode "B" 12) bindingsAB (.notProvided "B")) :=
  ⟨by rfl, by rfl,
   c3_prepare_fail_fast (RuleTemplate.mk "$\x7bA\x7d > 1 && $\x7bB\x7d < 2" astAB) bindingsAB
     [tvNode "A" 0] (tvNode "B" 12) [] (.notProvided "B") (by rfl)
     (by
       intro p hp
       simp only [List.mem_singleton] at hp
       subst hp
       exact ⟨"5", by rfl⟩)
     (by rfl)⟩

/-- C4: a filterless placeholder of declared type `string` renders as a
double-quoted literal whose body is the single-pass escape of the value
(every backslash escaped, every double quote escaped, nothing escaped
twice) — the backslash-then-quote replacement order of the source is
exactly this single pass. -/
theorem c4_escape_order (node : Node) (vars : Bindings) (info : VarInfo) (v : String)
    (hext : extractVariableFromNode node = some info)
    (hfil : info.filters = [])
    (hbind : bindingsLookup vars info.name = some (.obj (some (.str v)) (some "string"))) :
    computeTemplateReplacement node vars = .ok ("\"" ++ escapeSpec v ++ "\"") := by
  rw [compute_ok_formatted hext hbind (by decide) hfil]
  simp only [formatByType, if_pos rfl]
  rw [show jsToString (.str v) = v from rfl, escape_compose]
  simp

/-- C4 witness: the escaping example of the spec and the test-suite. -/
theorem c4_witness :
    extractVariableFromNode (tvNode "E" 0) = some ⟨"E", [], 0, 4⟩ ∧
    computeTemplateReplacement (tvNode "E" 0) bindingsEsc =
      .ok "\"test\\\"value\\\\with\\\\slashes\"" :=
  ⟨by rfl, by
    rw [c4_escape_order (tvNode "E" 0) bindingsEsc ⟨"E", [], 0, 4⟩
      "test\"value\\with\\slashes" (by rfl) (by rfl) (by rfl)]
    rfl⟩

/-- C5 counterexample: `parse` trims its input, so for the zero-placeholder
input `" TRUE"` (which parses successfully after trimming), `prepare` with
empty bindings returns the trimmed text `"TRUE"`, not the input text
exactly. -/
theorem c5_counterexample :
    noTemplate astTrue = true ∧ WF astTrue = true ∧
    (RuleTemplate.parse (fun _ => astTrue) " TRUE").ruleTemplateText = " TRUE" ∧
    (RuleTemplate.parse (fun _ => astTrue) " TRUE").prepare [] = .ok "TRUE" ∧
    "TRUE" ≠ " TRUE" :=
  ⟨by decide, by decide, rfl, by rfl, by decide⟩

/-- C5 (amended): for every text containing zero placeholders that parses
successfully, preparing the parsed template with an empty bindings map
returns the trimmed input text exactly (hence the input itself whenever the
input carries no leading or trailing whitespace). -/
theorem c5_prepare_trimmed_identity (getAST : String → Node) (text : String)
    (hwf : WF (getAST (jsTrim text)) = true)
    (hnt : noTemplate (getAST (jsTrim text)) = true)
    (htext : (getAST (jsTrim text)).text = jsTrim text) :
    (RuleTemplate.parse getAST text).prepare [] = .ok (jsTrim text) := by
  have h := rebuild_noTemplate [] (getAST (jsTrim text)) hwf hnt
  show rebuildFromAST [] (getAST (jsTrim text)) = .ok (jsTrim text)
  rw [h, htext]

/-- C5 witness: a trailing-whitespace input whose trimmed form is `TRUE`. -/
theorem c5_witness :
    WF astTrue = true ∧ noTemplate astTrue = true ∧
    (RuleTemplate.parse (fun _ => astTrue) "TRUE  ").prepare [] = .ok (jsTrim "TRUE  ") :=
  ⟨by decide, by decide,
   c5_prepare_trimmed_identity (fun _ => astTrue) "TRUE  " (by decide) (by decide) (by decide)⟩

/-- C6: a placeholder with a non-empty chain of known filters is computed by
folding the filters left to right over the bound value (each output feeding
the next input) and the final value is inserted via plain string coercion —
no type-based quoting is applied afterwards, whatever the declared type. -/
theorem c6_filter_chain_pipeline (node : Node) (vars : Bindings) (info : VarInfo)
    (v : JSValue) (ty : String)
    (hext : extractVariableFromNode node = some info)
    (hfil : info.filters ≠ [])
    (hknown : ∀ f ∈ info.filters, (templateFiltersLookup f).isSome)
    (hbind : bindingsLookup vars info.name = some (.obj (some v) (some ty)))
    (hty : VariableTypes.contains ty = true) :
    computeTemplateReplacement node vars =
      .ok (jsToString (info.filters.foldl
        (fun acc f => ((templateFiltersLookup f).getD id) acc) v)) :=
  compute_ok_filtered hext hbind hty hfil hknown

/-- C6 witness: `$\x7bE|trim|upper\x7d` on `"  hello  "` (declared type
`string`) renders `HELLO`, trimmed before upper-casing and unquoted. -/
theorem c6_witness :
    extractVariableFromNode tvFilt = some ⟨"E", ["trim", "upper"], 0, 15⟩ ∧
    computeTemplateReplacement tvFilt bindingsFilt = .ok "HELLO" :=
  ⟨by rfl, by
    rw [c6_filter_chain_pipeline tvFilt bindingsFilt ⟨"E", ["trim", "upper"], 0, 15⟩
      (.str "  hello  ") "string" (by rfl) (by decide) (by decide) (by rfl) (by decide)]
    rfl⟩

/-- C7: `validate` is a total function returning a `{valid, errors}`
structure (it never raises, by its type); it collects one error per
problematic variable over all extracted variables without stopping at the
first, `valid` holds exactly when `errors` is empty, and a binding carrying
a `value` but no `type` key produces no validation error while `prepare`'s
replacement computation raises `missingType` on that same binding. -/
theorem c7_validate_advisory :
    (∀ (t : RuleTemplate) (vars : Bindings),
      ((t.validate vars).valid = true ↔ (t.validate vars).errors = []) ∧
      (t.validate vars).errors = (t.extractVariables).filterMap (validateOne vars)) ∧
    (∀ (vars : Bindings) (ev : ExtractedVariable) (v : JSValue),
      bindingsLookup vars ev.name = some (.obj (some v) none) →
      validateOne vars ev = none) ∧
    (∀ (node : Node) (vars : Bindings) (info : VarInfo) (v : JSValue),
      extractVariableFromNode node = some info →
      bindingsLookup vars info.name = some (.obj (some v) none) →
      computeTemplateReplacement node vars = .error (.missingType info.name)) := by
  refine ⟨fun t vars => ⟨validate_valid_iff t vars, validate_errors_eq t vars⟩, ?_, ?_⟩
  · intro vars ev v hbind
    simp [validateOne, hbind]
  · intro node vars info v hext hbind
    simp [computeTemplateReplacement, hext, hbind]

/-- C7 witness: a binding with a `value` but no `type`: `validate` accepts
the template, `prepare`'s replacement raises for the missing `type`. -/
theorem c7_witness :
    validateOne bindingsNoType ⟨"X", [], [(0, 4)]⟩ = none ∧
    ((RuleTemplate.mk "$\x7bX\x7d > 1" astX).validate bindingsNoType).valid = true ∧
    computeTemplateReplacement (tvNode "X" 0) bindingsNoType = .error (.missingType "X") :=
  ⟨c7_validate_advisory.2.1 bindingsNoType ⟨"X", [], [(0, 4)]⟩ (.num 1) (by rfl),
   by rfl,
   c7_validate_advisory.2.2 (tvNode "X" 0) bindingsNoType ⟨"X", [], 0, 4⟩ (.num 1)
     (by rfl) (by rfl)⟩

/-- C8 counterexample: with a host rule store containing `value_atom` (not
overridden by the template extension, which defines no such rule), the
module initialisation pushes the `template_value` alternative onto the
host's own `value_atom` rule object: a rule object reachable from the host
rule list is mutated, refuting the claim's purity clause at this input. -/
theorem c8_counterexample :
    0 ∈ hostVA ∧
    derefRule (initExtendedGrammar heapVA hostVA tmplVA).1 0 =
      pushTemplateAlt (derefRule heapVA 0) ∧
    derefRule (initExtendedGrammar heapVA hostVA tmplVA).1 0 ≠ derefRule heapVA 0 :=
  ⟨by decide, by decide, by decide⟩

/-- C8 (amended): the merge loop replaces same-named host rules in place and
appends every other extension rule, producing one flat rule list, and the
host rule *list* is never written (the spread copy is merged); however the
composition is not fully pure on rule *objects*: it appends the
`["template_value"]` alternative to the `bnf` of the rule named
`value_atom` found in the merged list — every rule object with a different
name is untouched, and the `value_atom` object (the host's own object
whenever the host defines it and the extension does not) is mutated by
exactly that push. -/
theorem c8_composition_amended :
    (∀ (heap : List GRule) (host tmpl : List Nat),
      (mergeGrammarIdx heap host tmpl).map (derefRule heap) =
        mergeGrammar (host.map (derefRule heap)) (tmpl.map (derefRule heap))) ∧
    (∀ (heap : List GRule) (host tmpl : List Nat) (k : Nat),
      (derefRule heap k).name ≠ "value_atom" →
      derefRule (initExtendedGrammar heap host tmpl).1 k = derefRule heap k) ∧
    (∀ (heap : List GRule) (host tmpl : List Nat) (i p : Nat),
      List.findIdx? (fun ei => (derefRule heap ei).name = "value_atom")
        (mergeGrammarIdx heap host tmpl) = some i →
      p = (mergeGrammarIdx heap host tmpl).getD i 0 → p < heap.length →
      derefRule (initExtendedGrammar heap host tmpl).1 p =
        pushTemplateAlt (derefRule heap p)) :=
  ⟨fun heap host tmpl => mergeGrammarIdx_deref heap tmpl host,
   fun heap host tmpl k hk => initExtendedGrammar_preserves heap host tmpl k hk,
   fun heap host tmpl i p h1 h2 h3 => initExtendedGrammar_mutation heap host tmpl i p h1 h2 h3⟩

/-- C8 witness: on the concrete store, the merge is the value-level
replace-or-append merge, the non-`value_atom` object is untouched, and the
`value_atom` object receives exactly the pushed alternative. -/
theorem c8_witness :
    (mergeGrammarIdx heapVA hostVA tmplVA).map (derefRule heapVA) =
      mergeGrammar (hostVA.map (derefRule heapVA)) (tmplVA.map (derefRule heapVA)) ∧
    derefRule (initExtendedGrammar heapVA hostVA tmplVA).1 1 = derefRule heapVA 1 ∧
    derefRule (initExtendedGrammar heapVA hostVA tmplVA).1 0 =
      pushTemplateAlt (derefRule heapVA 0) :=
  ⟨c8_composition_amended.1 heapVA hostVA tmplVA,
   c8_composition_amended.2.1 heapVA hostVA tmplVA 1 (by decide),
   c8_composition_amended.2.2 heapVA hostVA tmplVA 0 0 (by decide) (by decide) (by decide)⟩

/-- C9: `parse` stores the original untrimmed string as `ruleTemplateText`
and parses the trimmed text; consequently every `(start, end)` pair that
`extractVariables` reports indexes into the trimmed text — the span read in
the trimmed text is exactly the placeholder node's own matched text and its
end lies within the trimmed length — and `prepare`'s rebuild (C5/C1) works
over that same trimmed text. -/
theorem c9_parse_trim_positions (getAST : String → Node) (text : String)
    (hwf : WF (getAST (jsTrim text)) = true)
    (hstart : (getAST (jsTrim text)).start = 0)
    (hstop : (getAST (jsTrim text)).stop = (jsTrim text).length)
    (htext : (getAST (jsTrim text)).text = jsTrim text) :
    (RuleTemplate.parse getAST text).ruleTemplateText = text ∧
    (RuleTemplate.parse getAST text).ast = getAST (jsTrim text) ∧
    ∀ v ∈ (RuleTemplate.parse getAST text).extractVariables, ∀ pos ∈ v.positions,
      pos.2 ≤ (jsTrim text).length ∧
      ∃ (m : Node) (fl : List String),
        extractVariableFromNode m = some ⟨v.name, fl, pos.1, pos.2⟩ ∧
        sliceNat (jsTrim text) pos.1 pos.2 = m.text := by
  refine ⟨rfl, rfl, ?_⟩
  intro v hv pos hpos
  rw [extractVariables_eq_spec] at hv
  obtain ⟨vi, hvi, hname, hspan⟩ := spec_positions _ v hv pos hpos
  obtain ⟨h1, h2, m, hm1, hm2, hm3, hm4⟩ := occ_slice (getAST (jsTrim text)) hwf vi hvi
  rw [htext, hstart] at hm4
  simp only [Nat.sub_zero] at hm4
  rw [hstop] at h2
  subst hspan
  refine ⟨h2, m, vi.filters, ?_, hm4⟩
  rw [hm1]
  congr 1
  cases vi
  simp only at hname
  simp [hname]

/-- C9 witness: the input `"  $\x7bX\x7d > 1"` with leading whitespace: the
original text is stored, the single position `(0, 4)` indexes the trimmed
text (where it reads the placeholder), and the same span read in the stored
untrimmed text reads something else. -/
theorem c9_witness :
    (RuleTemplate.parse (fun _ => astX) "  $\x7bX\x7d > 1").ruleTemplateText =
      "  $\x7bX\x7d > 1" ∧
    ((0, 4).2 ≤ (jsTrim "  $\x7bX\x7d > 1").length ∧
      ∃ (m : Node) (fl : List String),
        extractVariableFromNode m =
          some ⟨(⟨"X", [], [(0, 4)]⟩ : ExtractedVariable).name, fl, (0, 4).1, (0, 4).2⟩ ∧
        sliceNat (jsTrim "  $\x7bX\x7d > 1") (0, 4).1 (0, 4).2 = m.text) ∧
    sliceNat "  $\x7bX\x7d > 1" 0 4 ≠ sliceNat (jsTrim "  $\x7bX\x7d > 1") 0 4 := by
  obtain ⟨h1, _, h3⟩ := c9_parse_trim_positions (fun _ => astX) "  $\x7bX\x7d > 1"
    (by decide) (by decide) (by decide) (by decide)
  exact ⟨h1, h3 ⟨"X", [], [(0, 4)]⟩ (by decide) (0, 4) (by decide), by decide⟩

/-- C10: a filterless placeholder of declared type `boolean` renders
`true` exactly when the bound value is truthy under host-language coercion
and `false` otherwise, whatever the value's actual type. -/
theorem c10_boolean_truthiness (node : Node) (vars : Bindings) (info : VarInfo) (v : JSValue)
    (hext : extractVariableFromNode node = some info)
    (hfil : info.filters = [])
    (hbind : bindingsLookup vars info.name = some (.obj (some v) (some "boolean"))) :
    computeTemplateReplacement node vars = .ok (if truthy v then "true" else "false") := by
  rw [compute_ok_formatted hext hbind (by decide) hfil]
  simp [formatByType]

/-- C10 witness: the number 0 and the empty string render `false`; the
non-empty string `"false"` renders `true`. -/
theorem c10_witness :
    computeTemplateReplacement (tvNode "B" 0) bindingsBoolNum = .ok "false" ∧
    computeTemplateReplacement (tvNode "B" 0) bindingsBoolEmpty = .ok "false" ∧
    computeTemplateReplacement (tvNode "B" 0) bindingsBoolStr = .ok "true" := by
  refine ⟨?_, ?_, ?_⟩
  · rw [c10_boolean_truthiness (tvNode "B" 0) bindingsBoolNum ⟨"B", [], 0, 4⟩ (.num 0)
      (by rfl) (by rfl) (by rfl)]
    rfl
  · rw [c10_boolean_truthiness (tvNode "B" 0) bindingsBoolEmpty ⟨"B", [], 0, 4⟩ (.str "")
      (by rfl) (by rfl) (by rfl)]
    rfl
  · rw [c10_boolean_truthiness (tvNode "B" 0) bindingsBoolStr ⟨"B", [], 0, 4⟩ (.str "false")
      (by rfl) (by rfl) (by rfl)]
    rfl
